import Mathlib

/-!
# Verification of the ggllm.cpp CUDA backend (`src/ggml-cuda.cu`)

This file gives a shallow embedding of the parts of `ggml-cuda.cu` referred to
by the specification claims, and proves (or refutes) each claim against it.

Embedding conventions:
* IEEE `float`/`double` values and arithmetic are modelled by exact rationals
  (`ℚ`); integer truncation of a float (`int(x)`, `size_t(x)`) is modelled by
  truncation toward zero, `roundf` by rounding half away from zero.
* machine integers are modelled by `ℕ`/`ℤ` with explicit wraparound where a
  conversion can overflow (`toInt8`).
* device pointers are modelled as natural numbers handed out by a counter in
  the state (`nextPtr`); the null pointer is `Option.none`.
* the per-warp shuffle reductions of the quantization kernels (32 lanes = one
  32-element block) are modelled at block granularity: one block of 32 inputs
  produces one quantized block.
-/

set_option maxRecDepth 8000

namespace GgllmCuda

/-! ## Quantization codec (`quantize_q8_0`, `quantize_q8_1`, `dequantize_q8_0`) -/

/-- `QK8_0 = 32`: block size of the 8-bit symmetric format. -/
def QK8_0 : ℕ := 32

/-- C `roundf`: round to nearest, ties away from zero, on exact rationals. -/
def roundf (x : ℚ) : ℤ := if 0 ≤ x then ⌊x + 1/2⌋ else ⌈x - 1/2⌉

/-- C cast of an integer value to `int8_t` (two's-complement wraparound). -/
def toInt8 (z : ℤ) : ℤ := (z + 128) % 256 - 128

/-- `block_q8_0`: one 16-bit scale `d` plus 32 signed 8-bit codes `qs`. -/
structure BlockQ8_0 where
  d : ℚ
  qs : Fin 32 → ℤ

/-- `block_q8_1`: scale/sum pair `ds` plus 32 signed 8-bit codes `qs`. -/
structure BlockQ8_1 where
  ds : ℚ × ℚ
  qs : Fin 32 → ℤ

/-- The warp-wide `fmaxf`/`__shfl_xor_sync` reduction of `fabsf(xi)` over the
32 lanes holding one block: the maximum of `|x i|` over the block. -/
def blockAmax (x : Fin 32 → ℚ) : ℚ :=
  ((List.finRange 32).map fun i => |x i|).foldr max 0

/-- The warp-wide sum reduction in `quantize_q8_1`. -/
def blockSum (x : Fin 32 → ℚ) : ℚ :=
  ((List.finRange 32).map fun i => x i).foldr (· + ·) 0

/-- `quantize_q8_0` (kernel at `src/ggml-cuda.cu:2129`), one warp / one block:
`d = amax / 127`, `q = amax == 0.0f ? 0 : roundf(xi / d)` stored as `int8_t`. -/
def quantize_q8_0 (x : Fin 32 → ℚ) : BlockQ8_0 :=
  let amax := blockAmax x
  let d := amax / 127
  { d := d
    qs := fun i => toInt8 (if amax = 0 then 0 else roundf (x i / d)) }

/-- `quantize_q8_1` (kernel at `src/ggml-cuda.cu:2212`), one warp / one block:
as `quantize_q8_0` but additionally storing the block sum in `ds.y`. -/
def quantize_q8_1 (x : Fin 32 → ℚ) : BlockQ8_1 :=
  let amax := blockAmax x
  let d := amax / 127
  { ds := (d, blockSum x)
    qs := fun i => toInt8 (if amax = 0 then 0 else roundf (x i / d)) }

/-- `dequantize_q8_0` (`src/ggml-cuda.cu:522`): for quant index `iqs` return
the value pair `(qs[iqs] * d, qs[iqs+1] * d)`; the caller `dequantize_block`
only passes even `iqs`, modelled here as `iqs = 2 * e`. -/
def dequantize_q8_0 (b : BlockQ8_0) (e : Fin 16) : ℚ × ℚ :=
  (b.qs ⟨2 * e.val, by have := e.isLt; omega⟩ * b.d,
   b.qs ⟨2 * e.val + 1, by have := e.isLt; omega⟩ * b.d)

/-! ### Codec lemmas -/

theorem le_foldr_max {l : List ℚ} {a init : ℚ} (h : a ∈ l) :
    a ≤ l.foldr max init := by
  induction l with
  | nil => simp at h
  | cons b t ih =>
    rcases List.mem_cons.mp h with rfl | h
    · exact le_max_left _ _
    · exact le_trans (ih h) (le_max_right _ _)

theorem init_le_foldr_max (l : List ℚ) (init : ℚ) :
    init ≤ l.foldr max init := by
  induction l with
  | nil => simp
  | cons b t ih => exact le_trans ih (le_max_right _ _)

theorem abs_le_blockAmax (x : Fin 32 → ℚ) (i : Fin 32) : |x i| ≤ blockAmax x :=
  le_foldr_max (List.mem_map.mpr ⟨i, List.mem_finRange i, rfl⟩)

theorem blockAmax_nonneg (x : Fin 32 → ℚ) : 0 ≤ blockAmax x :=
  init_le_foldr_max _ _

theorem roundf_sub_abs_le (x : ℚ) : |(roundf x : ℚ) - x| ≤ 1/2 := by
  unfold roundf
  split
  · rw [abs_le]
    constructor
    · have := Int.sub_one_lt_floor (x + 1/2)
      push_cast at this ⊢
      linarith
    · have := Int.floor_le (x + 1/2)
      push_cast at this ⊢
      linarith
  · rw [abs_le]
    constructor
    · have := Int.le_ceil (x - 1/2)
      push_cast at this ⊢
      linarith
    · have := Int.ceil_lt_add_one (x - 1/2)
      push_cast at this ⊢
      linarith

theorem roundf_mem_Icc {x : ℚ} (hlo : -127 ≤ x) (hhi : x ≤ 127) :
    -127 ≤ roundf x ∧ roundf x ≤ 127 := by
  unfold roundf
  split
  · refine ⟨?_, ?_⟩
    · have h0 : (0:ℤ) ≤ ⌊x + 1/2⌋ := by
        rw [Int.le_floor]; push_cast; linarith
      omega
    · have : ⌊x + 1/2⌋ ≤ ⌊(127:ℚ) + 1/2⌋ := Int.floor_le_floor (by linarith)
      have h127 : ⌊(127:ℚ) + 1/2⌋ = 127 := by norm_num
      omega
  · refine ⟨?_, ?_⟩
    · have : ⌈(-127:ℚ) - 1/2⌉ ≤ ⌈x - 1/2⌉ := Int.ceil_le_ceil (by linarith)
      have hm : ⌈(-127:ℚ) - 1/2⌉ = -127 := by
        rw [Int.ceil_eq_iff]
        constructor <;> norm_num
      omega
    · have h0 : ⌈x - 1/2⌉ ≤ 0 := by
        rw [Int.ceil_le]; push_cast; linarith
      omega

theorem toInt8_eq_self {z : ℤ} (hlo : -128 ≤ z) (hhi : z ≤ 127) : toInt8 z = z := by
  unfold toInt8
  have h1 : (0:ℤ) ≤ z + 128 := by omega
  have h2 : z + 128 < 256 := by omega
  rw [Int.emod_eq_of_lt h1 h2]
  omega

/-- Per-element round-trip error of the 8-bit symmetric codec: the stored code
times the stored scale differs from the input by at most half the scale. -/
theorem q8_0_element_error (x : Fin 32 → ℚ) (i : Fin 32) :
    |(quantize_q8_0 x).qs i * (quantize_q8_0 x).d - x i| ≤ (quantize_q8_0 x).d / 2 := by
  set amax := blockAmax x with hamax
  have hnn : 0 ≤ amax := blockAmax_nonneg x
  have hxi : |x i| ≤ amax := abs_le_blockAmax x i
  show |(toInt8 (if amax = 0 then 0 else roundf (x i / (amax / 127))) : ℚ)
        * (amax / 127) - x i| ≤ (amax / 127) / 2
  by_cases h0 : amax = 0
  · have hx0 : x i = 0 := by
      rw [h0] at hxi
      have := abs_nonneg (x i)
      have : |x i| = 0 := le_antisymm hxi this
      exact abs_eq_zero.mp this
    simp [h0, hx0, toInt8]
  · have hpos : 0 < amax := lt_of_le_of_ne hnn (Ne.symm h0)
    have hd : 0 < amax / 127 := by positivity
    set d := amax / 127 with hdd
    set y := x i / d with hy
    have hy_abs : |y| ≤ 127 := by
      rw [hy, abs_div, abs_of_pos hd]
      rw [div_le_iff₀ hd]
      calc |x i| ≤ amax := hxi
        _ = 127 * d := by rw [hdd]; field_simp
    have hylo : -127 ≤ y := neg_le_of_abs_le hy_abs
    have hyhi : y ≤ 127 := le_of_abs_le hy_abs
    obtain ⟨hrlo, hrhi⟩ := roundf_mem_Icc hylo hyhi
    rw [if_neg h0, toInt8_eq_self (by omega) hrhi]
    have hround : |(roundf y : ℚ) - y| ≤ 1/2 := roundf_sub_abs_le y
    have hxid : x i = y * d := by rw [hy]; field_simp
    calc |(roundf y : ℚ) * d - x i| = |((roundf y : ℚ) - y) * d| := by
          rw [hxid]; ring_nf
      _ = |(roundf y : ℚ) - y| * d := by rw [abs_mul, abs_of_pos hd]
      _ ≤ (1/2) * d := by
          exact mul_le_mul_of_nonneg_right hround (le_of_lt hd)
      _ = d / 2 := by ring

/-- C1 (confirmed). For the symmetric 8-bit format `q8_0`, encoding a block of
32 values with `quantize_q8_0` and decoding it with `dequantize_q8_0` yields,
for every element, a value within `d / 2` of the original, where
`d = max_i |x_i| / 127` is the per-block scale.  (`quantize_q8_0` and
`dequantize_q8_0` are the only encode/decode pair present in this source
file; they fix the claim's concrete instance.) -/
theorem C1_q8_0_roundtrip_error_bound (x : Fin 32 → ℚ) :
    (quantize_q8_0 x).d = blockAmax x / 127 ∧
    ∀ e : Fin 16,
      |(dequantize_q8_0 (quantize_q8_0 x) e).1 -
          x ⟨2 * e.val, by have := e.isLt; omega⟩| ≤ (quantize_q8_0 x).d / 2 ∧
      |(dequantize_q8_0 (quantize_q8_0 x) e).2 -
          x ⟨2 * e.val + 1, by have := e.isLt; omega⟩| ≤ (quantize_q8_0 x).d / 2 := by
  refine ⟨rfl, fun e => ⟨?_, ?_⟩⟩
  · exact q8_0_element_error x ⟨2 * e.val, by have := e.isLt; omega⟩
  · exact q8_0_element_error x ⟨2 * e.val + 1, by have := e.isLt; omega⟩

theorem foldr_max_replicate_zero (n : ℕ) :
    (List.replicate n (0:ℚ)).foldr max 0 = 0 := by
  induction n with
  | zero => simp
  | succ n ih => simp [List.replicate_succ, ih]

theorem foldr_add_replicate_zero (n : ℕ) :
    (List.replicate n (0:ℚ)).foldr (· + ·) 0 = 0 := by
  induction n with
  | zero => simp
  | succ n ih => simp [List.replicate_succ, ih]

theorem blockAmax_zero_input : blockAmax (fun _ : Fin 32 => (0:ℚ)) = 0 := by
  unfold blockAmax
  simp [foldr_max_replicate_zero]

theorem blockSum_zero_input : blockSum (fun _ : Fin 32 => (0:ℚ)) = 0 := by
  unfold blockSum
  simp [foldr_add_replicate_zero]

/-- C8 (confirmed). An all-zero block encodes, in both 8-bit formats, to scale
0 and all-zero codes (the value/scale division is guarded by the `amax == 0`
test), and `dequantize_q8_0` returns exactly 0 for every element of that
block.  For `quantize_q8_1` the stored pair is `(d, sum) = (0, 0)`. -/
theorem C8_all_zero_block :
    (quantize_q8_0 (fun _ => 0)).d = 0 ∧
    (∀ i : Fin 32, (quantize_q8_0 (fun _ => 0)).qs i = 0) ∧
    (∀ e : Fin 16, dequantize_q8_0 (quantize_q8_0 (fun _ => 0)) e = (0, 0)) ∧
    (quantize_q8_1 (fun _ => 0)).ds = (0, 0) ∧
    (∀ i : Fin 32, (quantize_q8_1 (fun _ => 0)).qs i = 0) := by
  have hqs0 : ∀ i : Fin 32, (quantize_q8_0 (fun _ => 0)).qs i = 0 := by
    intro i
    show toInt8 (if blockAmax (fun _ => 0) = 0 then 0
      else roundf (0 / (blockAmax (fun _ => 0) / 127))) = 0
    rw [if_pos blockAmax_zero_input]
    simp [toInt8]
  have hd0 : (quantize_q8_0 (fun _ => 0)).d = 0 := by
    show blockAmax (fun _ => 0) / 127 = 0
    rw [blockAmax_zero_input]; norm_num
  refine ⟨hd0, hqs0, ?_, ?_, ?_⟩
  · intro e
    unfold dequantize_q8_0
    rw [hqs0, hqs0, hd0]
    norm_num
  · show (blockAmax (fun _ => 0) / 127, blockSum (fun _ => 0)) = (0, 0)
    rw [blockAmax_zero_input, blockSum_zero_input]
    norm_num
  · intro i
    show toInt8 (if blockAmax (fun _ => 0) = 0 then 0
      else roundf (0 / (blockAmax (fun _ => 0) / 127))) = 0
    rw [if_pos blockAmax_zero_input]
    simp [toInt8]

/-! ## Tensor split (`ggml_cuda_set_tensor_split`, `ggml_cuda_tensor_split_custom`)

`g_tensor_split` is modelled as a function `ℕ → ℚ` (the global float array,
default-initialised to 0); `ggml_cuda_set_tensor_split` maps the old array to
the new one.  C truncation `int(x)` of a float is `qtrunc`. -/

def MATRIX_SPLIT_DIVISIBLE : ℕ := 512

/-- C float-to-int conversion: truncation toward zero. -/
def qtrunc (x : ℚ) : ℤ := if 0 ≤ x then ⌊x⌋ else -⌊-x⌋

/-- `ggml_cuda_set_tensor_split` (`src/ggml-cuda.cu:5732`): store cumulative
fractions, then normalise by the total; a device whose own fraction is zero
gets breakpoint `1.0`.  `g0` is the previous contents of `g_tensor_split`. -/
def ggml_cuda_set_tensor_split (g0 : ℕ → ℚ) (tensor_split : ℕ → ℚ)
    (numDevices : ℕ) : ℕ → ℚ :=
  if ∀ i, i < numDevices → tensor_split i = 0 then g0
  else
    let split_sum : ℚ := ∑ j ∈ Finset.range numDevices, tensor_split j
    fun i =>
      if i < numDevices then
        if tensor_split i / split_sum = 0 then 1
        else (∑ j ∈ Finset.range i, tensor_split j) / split_sum
      else g0 i

/-- Result record of `ggml_cuda_tensor_split_custom` (its three `int&`
out-parameters). -/
structure SplitWindow where
  row_low : ℤ
  row_high : ℤ
  padding_required : ℤ

/-- `ggml_cuda_tensor_split_custom` (`src/ggml-cuda.cu:5516`).  `padding_in`
is the caller's value of `padding_required`, which the function only assigns
for the last device. -/
def ggml_cuda_tensor_split_custom (gsplit : ℕ → ℚ) (deviceCount : ℕ)
    (n_rows : ℕ) (device_id : ℕ) (padding_in : ℤ) : SplitWindow :=
  let parts : ℕ := n_rows / MATRIX_SPLIT_DIVISIBLE
  let r : ℕ := n_rows % MATRIX_SPLIT_DIVISIBLE
  let lowHigh : ℤ × ℤ :=
    if device_id = 0 then
      (0, qtrunc (gsplit (device_id + 1) * parts) * (MATRIX_SPLIT_DIVISIBLE : ℤ))
    else
      (qtrunc (gsplit device_id * parts) * (MATRIX_SPLIT_DIVISIBLE : ℤ),
       if (device_id : ℤ) ≥ (deviceCount : ℤ) - 1 then (n_rows : ℤ)
       else qtrunc (gsplit (device_id + 1) * parts) * (MATRIX_SPLIT_DIVISIBLE : ℤ))
  { row_low := lowHigh.1
    row_high := lowHigh.2
    padding_required := if (device_id : ℤ) = (deviceCount : ℤ) - 1 then (r : ℤ) else padding_in }

/-- The configuration of the C2 counterexample: a single device with the
whole split fraction. -/
def splitFracOneDevice : ℕ → ℚ := fun i => if i = 0 then 1 else 0

/-- C2 counterexample.  With `device_count = 1`, split fraction `[1.0]` and
1024 rows, device 0 takes the `device_id == 0` branch, whose `row_high` reads
`g_tensor_split[1]` — an entry `ggml_cuda_set_tensor_split` never wrote for a
one-device configuration, still 0 — so the single device's window is `[0, 0)`
and the union of the windows misses every row of `[0, 1024)`, refuting the
claim for device count 1. -/
theorem C2_counterexample :
    (ggml_cuda_tensor_split_custom
        (ggml_cuda_set_tensor_split (fun _ => 0) splitFracOneDevice 1) 1 1024 0 0).row_low = 0 ∧
    (ggml_cuda_tensor_split_custom
        (ggml_cuda_set_tensor_split (fun _ => 0) splitFracOneDevice 1) 1 1024 0 0).row_high = 0 ∧
    ¬ ∃ id : ℕ, id < 1 ∧
      (ggml_cuda_tensor_split_custom
          (ggml_cuda_set_tensor_split (fun _ => 0) splitFracOneDevice 1) 1 1024 id 0).row_low ≤ 0 ∧
      (0 : ℤ) < (ggml_cuda_tensor_split_custom
          (ggml_cuda_set_tensor_split (fun _ => 0) splitFracOneDevice 1) 1 1024 id 0).row_high := by
  have hset : ggml_cuda_set_tensor_split (fun _ => 0) splitFracOneDevice 1 1 = 0 := by
    unfold ggml_cuda_set_tensor_split
    rw [if_neg]
    · norm_num
    · intro h
      have := h 0 (by norm_num)
      simp [splitFracOneDevice] at this
  have hwin : (ggml_cuda_tensor_split_custom
      (ggml_cuda_set_tensor_split (fun _ => 0) splitFracOneDevice 1) 1 1024 0 0).row_high = 0 := by
    unfold ggml_cuda_tensor_split_custom
    simp only [if_pos rfl]
    rw [hset]
    norm_num [qtrunc]
  refine ⟨rfl, hwin, ?_⟩
  rintro ⟨id, hid, -, hlt⟩
  interval_cases id
  rw [hwin] at hlt
  exact absurd hlt (by norm_num)

/-! ### Split window helper lemmas -/

theorem qtrunc_of_nonneg {x : ℚ} (h : 0 ≤ x) : qtrunc x = ⌊x⌋ := if_pos h

theorem splitCustom_row_low_zero (gs : ℕ → ℚ) (ndev n : ℕ) (p : ℤ) :
    (ggml_cuda_tensor_split_custom gs ndev n 0 p).row_low = 0 := rfl

theorem splitCustom_row_high_zero (gs : ℕ → ℚ) (ndev n : ℕ) (p : ℤ) :
    (ggml_cuda_tensor_split_custom gs ndev n 0 p).row_high
      = qtrunc (gs 1 * ((n / 512 : ℕ) : ℚ)) * 512 := rfl

theorem splitCustom_row_low_pos (gs : ℕ → ℚ) (ndev n : ℕ) (p : ℤ) {id : ℕ} (h : id ≠ 0) :
    (ggml_cuda_tensor_split_custom gs ndev n id p).row_low
      = qtrunc (gs id * ((n / 512 : ℕ) : ℚ)) * 512 := by
  unfold ggml_cuda_tensor_split_custom
  simp [h, MATRIX_SPLIT_DIVISIBLE]

theorem splitCustom_row_high_last (gs : ℕ → ℚ) (ndev n : ℕ) (p : ℤ) {id : ℕ} (h : id ≠ 0)
    (hlast : (ndev : ℤ) - 1 ≤ (id : ℤ)) :
    (ggml_cuda_tensor_split_custom gs ndev n id p).row_high = (n : ℤ) := by
  unfold ggml_cuda_tensor_split_custom
  simp only [if_neg h]
  rw [if_pos hlast]

theorem splitCustom_row_high_mid (gs : ℕ → ℚ) (ndev n : ℕ) (p : ℤ) {id : ℕ} (h : id ≠ 0)
    (hmid : ¬ ((ndev : ℤ) - 1 ≤ (id : ℤ))) :
    (ggml_cuda_tensor_split_custom gs ndev n id p).row_high
      = qtrunc (gs (id + 1) * ((n / 512 : ℕ) : ℚ)) * 512 := by
  unfold ggml_cuda_tensor_split_custom
  simp only [if_neg h]
  rw [if_neg hmid]
  rfl

theorem splitCustom_padding_last (gs : ℕ → ℚ) (ndev n : ℕ) (p : ℤ) {id : ℕ}
    (h : (id : ℤ) = (ndev : ℤ) - 1) :
    (ggml_cuda_tensor_split_custom gs ndev n id p).padding_required
      = ((n % 512 : ℕ) : ℤ) := by
  unfold ggml_cuda_tensor_split_custom
  simp only [h, if_true, eq_self_iff_true]
  rfl

theorem splitCustom_padding_other (gs : ℕ → ℚ) (ndev n : ℕ) (p : ℤ) {id : ℕ}
    (h : (id : ℤ) ≠ (ndev : ℤ) - 1) :
    (ggml_cuda_tensor_split_custom gs ndev n id p).padding_required = p := by
  unfold ggml_cuda_tensor_split_custom
  simp only []
  rw [if_neg h]

/-- The windows computed by `ggml_cuda_tensor_split_custom` from the
breakpoints that `ggml_cuda_set_tensor_split` derives from the raw fractions
`fr`, with the caller's `padding_required` initialised to 0 (as in
`ggml_cuda_op`). -/
def splitWindows (fr : ℕ → ℚ) (ndev n_rows id : ℕ) : SplitWindow :=
  ggml_cuda_tensor_split_custom
    (ggml_cuda_set_tensor_split (fun _ => 0) fr ndev) ndev n_rows id 0

theorem set_tensor_split_pos_apply {fr : ℕ → ℚ} {ndev : ℕ}
    (hpos : ∀ i, i < ndev → 0 < fr i) (hnd : 0 < ndev) {i : ℕ} (hi : i < ndev) :
    ggml_cuda_set_tensor_split (fun _ => 0) fr ndev i
      = (∑ j ∈ Finset.range i, fr j) / (∑ j ∈ Finset.range ndev, fr j) := by
  have hTpos : 0 < ∑ j ∈ Finset.range ndev, fr j :=
    Finset.sum_pos (fun j hj => hpos j (Finset.mem_range.mp hj))
      ⟨0, Finset.mem_range.mpr hnd⟩
  unfold ggml_cuda_set_tensor_split
  rw [if_neg]
  · simp only []
    rw [if_pos hi, if_neg]
    exact ne_of_gt (div_pos (hpos i hi) hTpos)
  · intro h
    exact absurd (h 0 hnd) (ne_of_gt (hpos 0 hnd))

/-- C2 amended (see `C2_counterexample` for why the original claim fails at
device count 1).  For every device count ≥ 2, every family of strictly
positive split fractions and every row count, the per-device row windows are
contiguous and tile `[0, row_count)` exactly: device 0 starts at row 0, each
window ends where the next begins, every window is non-degenerate, and the
last device ends at `row_count`; the alignment remainder is reported as
padding capacity of the last device only.  The second conjunct is Scenario C:
two devices, fractions `[0.5, 0.5]`, 1024 rows, alignment 512. -/
theorem C2_split_coverage :
    (∀ ndev : ℕ, 2 ≤ ndev → ∀ fr : ℕ → ℚ, (∀ i, i < ndev → 0 < fr i) →
      ∀ n_rows : ℕ,
      (splitWindows fr ndev n_rows 0).row_low = 0 ∧
      (splitWindows fr ndev n_rows (ndev - 1)).row_high = (n_rows : ℤ) ∧
      (∀ id, id + 1 < ndev →
        (splitWindows fr ndev n_rows id).row_high
          = (splitWindows fr ndev n_rows (id + 1)).row_low) ∧
      (∀ id, id < ndev →
        (splitWindows fr ndev n_rows id).row_low
          ≤ (splitWindows fr ndev n_rows id).row_high) ∧
      (∀ id, id + 1 < ndev → (splitWindows fr ndev n_rows id).padding_required = 0) ∧
      (splitWindows fr ndev n_rows (ndev - 1)).padding_required
        = ((n_rows % 512 : ℕ) : ℤ)) ∧
    ((splitWindows (fun _ => 1/2) 2 1024 0).row_low = 0 ∧
     (splitWindows (fun _ => 1/2) 2 1024 0).row_high = 512 ∧
     (splitWindows (fun _ => 1/2) 2 1024 1).row_low = 512 ∧
     (splitWindows (fun _ => 1/2) 2 1024 1).row_high = 1024) := by
  constructor
  · intro ndev hnd fr hpos n_rows
    simp only [splitWindows]
    have hnd0 : 0 < ndev := by omega
    set gs := ggml_cuda_set_tensor_split (fun _ => 0) fr ndev with hgs_def
    set T : ℚ := ∑ j ∈ Finset.range ndev, fr j with hT
    have hTpos : 0 < T :=
      Finset.sum_pos (fun j hj => hpos j (Finset.mem_range.mp hj))
        ⟨0, Finset.mem_range.mpr hnd0⟩
    set bp : ℕ → ℚ := fun i => (∑ j ∈ Finset.range i, fr j) / T with hbp_def
    have hgs : ∀ i, i < ndev → gs i = bp i := fun i hi =>
      set_tensor_split_pos_apply hpos hnd0 hi
    have hbp_nonneg : ∀ i, i ≤ ndev → 0 ≤ bp i := by
      intro i hi
      apply div_nonneg _ (le_of_lt hTpos)
      exact Finset.sum_nonneg fun j hj =>
        le_of_lt (hpos j (lt_of_lt_of_le (Finset.mem_range.mp hj) hi))
    have hbp_mono : ∀ i j, i ≤ j → j ≤ ndev → bp i ≤ bp j := by
      intro i j hij hj
      have hsum : (∑ k ∈ Finset.range i, fr k) ≤ ∑ k ∈ Finset.range j, fr k :=
        Finset.sum_le_sum_of_subset_of_nonneg (Finset.range_subset.mpr hij)
          fun k hk _ =>
            le_of_lt (hpos k (lt_of_lt_of_le (Finset.mem_range.mp hk) hj))
      rw [hbp_def]
      rw [div_le_div_iff₀ hTpos hTpos]
      exact mul_le_mul_of_nonneg_right hsum (le_of_lt hTpos)
    have hbp_le_one : ∀ i, i ≤ ndev → bp i ≤ 1 := by
      intro i hi
      have h1 : bp ndev = 1 := by
        show T / T = 1
        exact div_self (ne_of_gt hTpos)
      calc bp i ≤ bp ndev := hbp_mono i ndev hi le_rfl
        _ = 1 := h1
    set parts : ℕ := n_rows / 512 with hparts
    set c : ℕ → ℤ := fun i => ⌊bp i * (parts : ℚ)⌋ * 512 with hc_def
    have hc_nonneg : ∀ i, i ≤ ndev → 0 ≤ c i := by
      intro i hi
      have : (0:ℤ) ≤ ⌊bp i * (parts : ℚ)⌋ :=
        Int.floor_nonneg.mpr (mul_nonneg (hbp_nonneg i hi) (by positivity))
      positivity
    have hc_mono : ∀ i j, i ≤ j → j ≤ ndev → c i ≤ c j := by
      intro i j hij hj
      have h : ⌊bp i * (parts : ℚ)⌋ ≤ ⌊bp j * (parts : ℚ)⌋ :=
        Int.floor_le_floor
          (mul_le_mul_of_nonneg_right (hbp_mono i j hij hj) (by positivity))
      show ⌊bp i * (parts : ℚ)⌋ * 512 ≤ ⌊bp j * (parts : ℚ)⌋ * 512
      exact mul_le_mul_of_nonneg_right h (by norm_num)
    have hc_le_n : ∀ i, i ≤ ndev → c i ≤ (n_rows : ℤ) := by
      intro i hi
      have h1 : ⌊bp i * (parts : ℚ)⌋ ≤ (parts : ℤ) := by
        have : ⌊bp i * (parts : ℚ)⌋ ≤ ⌊((parts : ℚ))⌋ := by
          apply Int.floor_le_floor
          calc bp i * (parts : ℚ) ≤ 1 * (parts : ℚ) :=
                mul_le_mul_of_nonneg_right (hbp_le_one i hi) (by positivity)
            _ = (parts : ℚ) := one_mul _
        simpa using this
      have h2 : (parts : ℤ) * 512 ≤ (n_rows : ℤ) := by
        have := Nat.div_mul_le_self n_rows 512
        rw [hparts]
        exact_mod_cast this
      calc c i = ⌊bp i * (parts : ℚ)⌋ * 512 := rfl
        _ ≤ (parts : ℤ) * 512 := by omega
        _ ≤ (n_rows : ℤ) := h2
    -- window formulas in terms of `c`
    have hqf : ∀ i, i < ndev →
        qtrunc (gs i * ((n_rows / 512 : ℕ) : ℚ)) * 512 = c i := by
      intro i hi
      rw [hgs i hi,
        qtrunc_of_nonneg (mul_nonneg (hbp_nonneg i (le_of_lt hi)) (by positivity))]
    have hlow : ∀ id, id ≠ 0 → id < ndev →
        (ggml_cuda_tensor_split_custom gs ndev n_rows id 0).row_low = c id := by
      intro id h0 hid
      rw [splitCustom_row_low_pos gs ndev n_rows 0 h0, hqf id hid]
    have hhigh0 : (ggml_cuda_tensor_split_custom gs ndev n_rows 0 0).row_high = c 1 := by
      rw [splitCustom_row_high_zero, hqf 1 (by omega)]
    have hhighmid : ∀ id, id ≠ 0 → id + 1 < ndev →
        (ggml_cuda_tensor_split_custom gs ndev n_rows id 0).row_high = c (id + 1) := by
      intro id h0 hid
      rw [splitCustom_row_high_mid gs ndev n_rows 0 h0 (by omega),
        hqf (id + 1) hid]
    have hhighlast :
        (ggml_cuda_tensor_split_custom gs ndev n_rows (ndev - 1) 0).row_high
          = (n_rows : ℤ) := by
      apply splitCustom_row_high_last gs ndev n_rows 0 (by omega)
      push_cast [Nat.cast_sub (by omega : 1 ≤ ndev)]
      omega
    refine ⟨splitCustom_row_low_zero gs ndev n_rows 0, hhighlast, ?_, ?_, ?_, ?_⟩
    · intro id hid
      rcases Nat.eq_zero_or_pos id with rfl | hpos_id
      · rw [hhigh0, hlow 1 (by omega) (by omega)]
      · rw [hhighmid id (by omega) hid, hlow (id + 1) (by omega) (by omega)]
    · intro id hid
      rcases Nat.eq_zero_or_pos id with rfl | hpos_id
      · rw [splitCustom_row_low_zero gs ndev n_rows 0, hhigh0]
        exact hc_nonneg 1 (by omega)
      · rcases Nat.lt_or_ge (id + 1) ndev with hmid | hlast
        · rw [hlow id (by omega) (by omega), hhighmid id (by omega) hmid]
          exact hc_mono id (id + 1) (by omega) (by omega)
        · have hide : id = ndev - 1 := by omega
          subst hide
          rw [hlow (ndev - 1) (by omega) (by omega), hhighlast]
          exact hc_le_n (ndev - 1) (by omega)
    · intro id hid
      exact splitCustom_padding_other gs ndev n_rows 0 (by omega)
    · apply splitCustom_padding_last gs ndev n_rows 0
      push_cast [Nat.cast_sub (by omega : 1 ≤ ndev)]
      omega
  · -- Scenario C
    have hgs1 : ggml_cuda_set_tensor_split (fun _ => 0) (fun _ => (1:ℚ)/2) 2 1
        = 1/2 := by
      rw [set_tensor_split_pos_apply (fun i _ => by norm_num) (by norm_num)
        (by norm_num)]
      rw [Finset.sum_range_succ, Finset.sum_range_succ, Finset.sum_range_one,
        Finset.sum_range_zero]
      norm_num
    have hq : qtrunc ((1:ℚ)/2 * ((1024 / 512 : ℕ) : ℚ)) * 512 = 512 := by
      have h2 : ((1024 / 512 : ℕ) : ℚ) = 2 := by norm_num
      rw [h2]
      norm_num [qtrunc]
    refine ⟨rfl, ?_, ?_, ?_⟩
    · rw [splitWindows, splitCustom_row_high_zero, hgs1, hq]
    · rw [splitWindows, splitCustom_row_low_pos _ _ _ _ (by omega : (1:ℕ) ≠ 0),
        hgs1, hq]
    · rw [splitWindows]
      rw [splitCustom_row_high_last _ _ _ _ (by omega : (1:ℕ) ≠ 0) (by norm_num)]
      norm_num

/-- Witness for `C2_split_coverage`: its general part instantiated at the
Scenario C configuration (2 devices, fractions 1/2 each, 1024 rows). -/
theorem C2_split_coverage_witness :
    (splitWindows (fun _ => 1/2) 2 1024 0).row_low = 0 ∧
    (splitWindows (fun _ => 1/2) 2 1024 1).row_high = 1024 ∧
    (splitWindows (fun _ => 1/2) 2 1024 0).row_high
      = (splitWindows (fun _ => 1/2) 2 1024 1).row_low ∧
    (splitWindows (fun _ => 1/2) 2 1024 1).padding_required = 0 := by
  obtain ⟨hlow, hhigh, hchain, -, -, hpad⟩ :=
    C2_split_coverage.1 2 (by norm_num) (fun _ => 1/2) (fun i _ => by norm_num) 1024
  exact ⟨hlow, by exact_mod_cast hhigh, hchain 0 (by norm_num), by simpa using hpad⟩

/-! ## Device memory pool (`ggml_cuda_pool_malloc` and friends)

One device's slot table `g_cuda_buffer_pool[id]` plus a fresh-pointer oracle
standing for `cudaMalloc` (each raw device allocation returns the next unused
pointer value).  All operations run under the pool spin lock in the source;
their bodies are sequential, so they are modelled as pure state transformers.
The `associated_tensor` back-pointer plays no role in the claims and is not
modelled. -/

def MAX_CUDA_BUFFERS : ℕ := 256

/-- `SIZE_MAX`, the initial value of `min_size_diff`. -/
def SIZE_MAX64 : ℕ := 2 ^ 64 - 1

structure cuda_buffer where
  ptr : Option ℕ
  ptr_in_use : Option ℕ
  size : ℕ
  access_count : ℕ
deriving DecidableEq

def emptyBuffer : cuda_buffer :=
  { ptr := none, ptr_in_use := none, size := 0, access_count := 0 }

structure PoolState where
  slots : ℕ → cuda_buffer
  nextPtr : ℕ

def initPoolState : PoolState := { slots := fun _ => emptyBuffer, nextPtr := 0 }

/-- `size * 0.05` in `ggml_cuda_pool_malloc`: `size` is promoted to `double`,
multiplied by the double constant `0.05 = 3602879701896397 / 2^56`, and the
product is converted back to `size_t` (truncation toward zero).  The rounding
of the double product itself (at most one ulp) is not modelled. -/
def min_size_diff_ok (size : ℕ) : ℕ :=
  size * 3602879701896397 / 72057594037927936

/-- The candidate condition of the best-fit scan:
`b.size >= size && b.ptr != nullptr`. -/
def poolFits (slots : ℕ → cuda_buffer) (size i : ℕ) : Prop :=
  size ≤ (slots i).size ∧ (slots i).ptr ≠ none

instance (slots : ℕ → cuda_buffer) (size i : ℕ) : Decidable (poolFits slots size i) :=
  inferInstanceAs (Decidable (_ ∧ _))

/-- The best-fit scan loop of `ggml_cuda_pool_malloc` (`src/ggml-cuda.cu:5355`):
walk the slot indices keeping the current best candidate and its size
difference (`min_size_diff` starts at `SIZE_MAX`), breaking early once the
difference drops inside the tolerance. -/
def pool_scan (slots : ℕ → cuda_buffer) (size tol : ℕ) :
    List ℕ → Option ℕ → ℕ → Option ℕ × ℕ
  | [], best, bestDiff => (best, bestDiff)
  | i :: rest, best, bestDiff =>
    if poolFits slots size i then
      if (slots i).size - size < bestDiff then
        if (slots i).size - size < tol then (some i, (slots i).size - size)
        else pool_scan slots size tol rest (some i) ((slots i).size - size)
      else pool_scan slots size tol rest best bestDiff
    else pool_scan slots size tol rest best bestDiff

structure MallocResult where
  ptr : Option ℕ
  actual_size : ℕ
  rawAlloc : Bool
  warned : Bool
deriving DecidableEq

/-- `ggml_cuda_pool_malloc` (`src/ggml-cuda.cu:5349`): best-fit reuse of a free
slot, else raw `cudaMalloc` plus registration in the first slot with both
pointers null (silently skipped when no such slot exists). -/
def ggml_cuda_pool_malloc (s : PoolState) (size : ℕ) : PoolState × MallocResult :=
  match pool_scan s.slots size (min_size_diff_ok size)
      (List.range MAX_CUDA_BUFFERS) none SIZE_MAX64 with
  | (some i, _) =>
    let b := s.slots i
    let inUse : cuda_buffer :=
      { b with ptr := none, ptr_in_use := b.ptr, access_count := b.access_count + 1 }
    ({ s with slots := Function.update s.slots i inUse },
     { ptr := b.ptr, actual_size := b.size, rawAlloc := false, warned := false })
  | (none, _) =>
    match (List.range MAX_CUDA_BUFFERS).find?
        (fun i => decide ((s.slots i).ptr = none ∧ (s.slots i).ptr_in_use = none)) with
    | some i =>
      let fresh : cuda_buffer :=
        { ptr := none, ptr_in_use := some s.nextPtr, size := size, access_count := 1 }
      ({ slots := Function.update s.slots i fresh, nextPtr := s.nextPtr + 1 },
       { ptr := some s.nextPtr, actual_size := size, rawAlloc := true, warned := false })
    | none =>
      ({ s with nextPtr := s.nextPtr + 1 },
       { ptr := some s.nextPtr, actual_size := size, rawAlloc := true, warned := false })

structure FreeResult where
  warned : Bool
  deviceFreed : Bool
deriving DecidableEq

/-- `ggml_cuda_pool_free` (`src/ggml-cuda.cu:5398`): return an in-use slot to
the free list (refreshing its recorded size when the caller passed one); an
unmatched pointer is released straight to the device with a warning. -/
def ggml_cuda_pool_free (s : PoolState) (ptr : ℕ) (size : ℕ) :
    PoolState × FreeResult :=
  match (List.range MAX_CUDA_BUFFERS).find?
      (fun i => decide ((s.slots i).ptr = none ∧ (s.slots i).ptr_in_use = some ptr)) with
  | some i =>
    let b := s.slots i
    let freed : cuda_buffer :=
      { b with ptr := some ptr, ptr_in_use := none
               size := if 0 < size then size else b.size, access_count := 1 }
    ({ s with slots := Function.update s.slots i freed },
     { warned := false, deviceFreed := false })
  | none => (s, { warned := true, deviceFreed := true })

/-- `ggml_cuda_pool_unallocate` (`src/ggml-cuda.cu:5419`): evict the first
slot holding the pointer (free or in-use) and release its memory. -/
def ggml_cuda_pool_unallocate (s : PoolState) (ptr : ℕ) : PoolState :=
  match (List.range MAX_CUDA_BUFFERS).find?
      (fun i => decide ((s.slots i).ptr = some ptr ∨ (s.slots i).ptr_in_use = some ptr)) with
  | some i => { s with slots := Function.update s.slots i emptyBuffer }
  | none => s

/-- `ggml_cuda_pool_purge_buffers_with_access_count` (`src/ggml-cuda.cu:5473`):
release every free (not in-use) slot whose access counter is below the
threshold. -/
def ggml_cuda_pool_purge_buffers_with_access_count
    (s : PoolState) (min_access_count : ℕ) : PoolState :=
  { s with slots := fun i =>
      if i < MAX_CUDA_BUFFERS ∧ (s.slots i).ptr ≠ none ∧
          (s.slots i).access_count < min_access_count
      then emptyBuffer else s.slots i }

/-- `ggml_cuda_pool_reset_all_counters` (`src/ggml-cuda.cu:5498`): zero the
access counters of all free slots. -/
def ggml_cuda_pool_reset_all_counters (s : PoolState) : PoolState :=
  { s with slots := fun i =>
      if i < MAX_CUDA_BUFFERS ∧ (s.slots i).ptr ≠ none
      then { s.slots i with access_count := 0 } else s.slots i }

/-- The pool operations whose interleavings claim C5 quantifies over. -/
inductive PoolOp where
  | malloc (size : ℕ)
  | free (ptr size : ℕ)
  | unallocate (ptr : ℕ)
  | purge (minAccessCount : ℕ)
  | resetCounters
deriving DecidableEq

def applyPoolOp (s : PoolState) : PoolOp → PoolState
  | .malloc size => (ggml_cuda_pool_malloc s size).1
  | .free ptr size => (ggml_cuda_pool_free s ptr size).1
  | .unallocate ptr => ggml_cuda_pool_unallocate s ptr
  | .purge m => ggml_cuda_pool_purge_buffers_with_access_count s m
  | .resetCounters => ggml_cuda_pool_reset_all_counters s

def runPool (ops : List PoolOp) : PoolState := ops.foldl applyPoolOp initPoolState

/-! ### Scan lemmas -/

theorem pool_scan_some_mem_fit (slots : ℕ → cuda_buffer) (size tol : ℕ) :
    ∀ (l : List ℕ) (best : Option ℕ) (bestDiff : ℕ) (i d : ℕ),
      pool_scan slots size tol l best bestDiff = (some i, d) →
      best = some i ∨ (i ∈ l ∧ poolFits slots size i) := by
  intro l
  induction l with
  | nil =>
    intro best bestDiff i d h
    rw [pool_scan] at h
    exact Or.inl (congrArg Prod.fst h)
  | cons a rest ih =>
    intro best bestDiff i d h
    rw [pool_scan] at h
    by_cases hfit : poolFits slots size a
    · rw [if_pos hfit] at h
      by_cases hlt : (slots a).size - size < bestDiff
      · rw [if_pos hlt] at h
        by_cases htol : (slots a).size - size < tol
        · rw [if_pos htol] at h
          have ha : a = i := by
            have := congrArg Prod.fst h
            simpa using this
          subst ha
          exact Or.inr ⟨List.mem_cons_self a rest, hfit⟩
        · rw [if_neg htol] at h
          rcases ih _ _ _ _ h with h1 | h2
          · have ha : a = i := by simpa using h1
            subst ha
            exact Or.inr ⟨List.mem_cons_self a rest, hfit⟩
          · exact Or.inr ⟨List.mem_cons_of_mem a h2.1, h2.2⟩
      · rw [if_neg hlt] at h
        rcases ih _ _ _ _ h with h1 | h2
        · exact Or.inl h1
        · exact Or.inr ⟨List.mem_cons_of_mem a h2.1, h2.2⟩
    · rw [if_neg hfit] at h
      rcases ih _ _ _ _ h with h1 | h2
      · exact Or.inl h1
      · exact Or.inr ⟨List.mem_cons_of_mem a h2.1, h2.2⟩

theorem pool_scan_isSome_of_best (slots : ℕ → cuda_buffer) (size tol : ℕ) :
    ∀ (l : List ℕ) (j : ℕ) (bestDiff : ℕ),
      (pool_scan slots size tol l (some j) bestDiff).1.isSome := by
  intro l
  induction l with
  | nil => intro j bestDiff; rw [pool_scan]; rfl
  | cons a rest ih =>
    intro j bestDiff
    rw [pool_scan]
    by_cases hfit : poolFits slots size a
    · rw [if_pos hfit]
      by_cases hlt : (slots a).size - size < bestDiff
      · rw [if_pos hlt]
        by_cases htol : (slots a).size - size < tol
        · rw [if_pos htol]; rfl
        · rw [if_neg htol]; exact ih _ _
      · rw [if_neg hlt]; exact ih _ _
    · rw [if_neg hfit]; exact ih _ _

theorem pool_scan_finds (slots : ℕ → cuda_buffer) (size tol : ℕ) (hsz : 0 < size) :
    ∀ (l : List ℕ) (best : Option ℕ) (bestDiff : ℕ),
      (best = none → bestDiff = SIZE_MAX64) →
      (∃ j ∈ l, poolFits slots size j ∧ (slots j).size < 2 ^ 64) →
      (pool_scan slots size tol l best bestDiff).1.isSome := by
  intro l
  induction l with
  | nil =>
    intro best bestDiff hinv hex
    simp at hex
  | cons a rest ih =>
    intro best bestDiff hinv hex
    rw [pool_scan]
    by_cases hfit : poolFits slots size a
    · rw [if_pos hfit]
      by_cases hlt : (slots a).size - size < bestDiff
      · rw [if_pos hlt]
        by_cases htol : (slots a).size - size < tol
        · rw [if_pos htol]; rfl
        · rw [if_neg htol]; exact pool_scan_isSome_of_best slots size tol rest a _
      · rw [if_neg hlt]
        cases best with
        | some j => exact pool_scan_isSome_of_best slots size tol rest j _
        | none =>
          -- the initial `SIZE_MAX` accumulator beats every bounded size
          -- difference, so the in-range witness cannot be `a` itself
          apply ih none bestDiff hinv
          rcases hex with ⟨j, hjmem, hjfit, hjsz⟩
          rcases List.mem_cons.mp hjmem with rfl | hjrest
          · exfalso
            have hd : (slots j).size - size < SIZE_MAX64 := by
              unfold SIZE_MAX64
              omega
            rw [hinv rfl] at hlt
            exact hlt hd
          · exact ⟨j, hjrest, hjfit, hjsz⟩
    · rw [if_neg hfit]
      apply ih best bestDiff hinv
      rcases hex with ⟨j, hjmem, hj⟩
      rcases List.mem_cons.mp hjmem with rfl | hjrest
      · exact absurd hj.1 hfit
      · exact ⟨j, hjrest, hj⟩

theorem pool_scan_none (slots : ℕ → cuda_buffer) (size tol : ℕ) :
    ∀ (l : List ℕ) (bestDiff : ℕ),
      (∀ j ∈ l, ¬ poolFits slots size j) →
      pool_scan slots size tol l none bestDiff = (none, bestDiff) := by
  intro l
  induction l with
  | nil => intro bestDiff _; rw [pool_scan]
  | cons a rest ih =>
    intro bestDiff hno
    rw [pool_scan, if_neg (hno a (List.mem_cons_self a rest))]
    exact ih bestDiff fun j hj => hno j (List.mem_cons_of_mem a hj)

theorem pool_scan_min (slots : ℕ → cuda_buffer) (size tol : ℕ) :
    ∀ (l : List ℕ) (best : Option ℕ) (bestDiff : ℕ) (i d : ℕ),
      (∀ j, best = some j → poolFits slots size j ∧ (slots j).size - size = bestDiff) →
      pool_scan slots size tol l best bestDiff = (some i, d) →
      (poolFits slots size i ∧ (slots i).size - size = d) ∧
      (d < tol ∨ (d ≤ bestDiff ∧
        ∀ j ∈ l, poolFits slots size j → d ≤ (slots j).size - size)) := by
  intro l
  induction l with
  | nil =>
    intro best bestDiff i d hinv h
    rw [pool_scan] at h
    obtain ⟨h1, h2⟩ := Prod.mk.injEq .. ▸ h
    rcases hinv i h1 with ⟨hfit, hdiff⟩
    exact ⟨⟨hfit, h2 ▸ hdiff⟩, Or.inr ⟨le_of_eq h2.symm, by simp⟩⟩
  | cons a rest ih =>
    intro best bestDiff i d hinv h
    rw [pool_scan] at h
    by_cases hfit : poolFits slots size a
    · rw [if_pos hfit] at h
      by_cases hlt : (slots a).size - size < bestDiff
      · rw [if_pos hlt] at h
        by_cases htol : (slots a).size - size < tol
        · rw [if_pos htol] at h
          obtain ⟨h1, h2⟩ := Prod.mk.injEq .. ▸ h
          have ha : a = i := by simpa using h1
          subst ha
          exact ⟨⟨hfit, h2⟩, Or.inl (h2 ▸ htol)⟩
        · rw [if_neg htol] at h
          have hinv' : ∀ j, (some a : Option ℕ) = some j →
              poolFits slots size j ∧ (slots j).size - size = (slots a).size - size := by
            intro j hj
            have : a = j := by simpa using hj
            subst this
            exact ⟨hfit, rfl⟩
          obtain ⟨hres, hmin⟩ := ih _ _ _ _ hinv' h
          refine ⟨hres, ?_⟩
          rcases hmin with hl | ⟨hle, hall⟩
          · exact Or.inl hl
          · refine Or.inr ⟨le_of_lt (lt_of_le_of_lt hle hlt), ?_⟩
            intro j hj hjfit
            rcases List.mem_cons.mp hj with rfl | hjrest
            · exact hle
            · exact hall j hjrest hjfit
      · rw [if_neg hlt] at h
        obtain ⟨hres, hmin⟩ := ih _ _ _ _ hinv h
        refine ⟨hres, ?_⟩
        rcases hmin with hl | ⟨hle, hall⟩
        · exact Or.inl hl
        · refine Or.inr ⟨hle, ?_⟩
          intro j hj hjfit
          rcases List.mem_cons.mp hj with rfl | hjrest
          · omega
          · exact hall j hjrest hjfit
    · rw [if_neg hfit] at h
      obtain ⟨hres, hmin⟩ := ih _ _ _ _ hinv h
      refine ⟨hres, ?_⟩
      rcases hmin with hl | ⟨hle, hall⟩
      · exact Or.inl hl
      · refine Or.inr ⟨hle, ?_⟩
        intro j hj hjfit
        rcases List.mem_cons.mp hj with rfl | hjrest
        · exact absurd hjfit hfit
        · exact hall j hjrest hjfit

/-! ### Pool invariant -/

/-- The slot holds (as free pointer or as in-use pointer) the device pointer
`p`. -/
def mentionsBuf (b : cuda_buffer) (p : ℕ) : Prop :=
  b.ptr = some p ∨ b.ptr_in_use = some p

/-- Reachability invariant of the pool: no slot has both pointers set, every
tracked pointer came from the allocation oracle, tracked pointers are
pairwise distinct across slots, and nothing lives beyond the fixed table. -/
structure PoolInv (s : PoolState) : Prop where
  not_both : ∀ i, (s.slots i).ptr = none ∨ (s.slots i).ptr_in_use = none
  bounded : ∀ i p, mentionsBuf (s.slots i) p → p < s.nextPtr
  distinct : ∀ i j p, i ≠ j → mentionsBuf (s.slots i) p → ¬ mentionsBuf (s.slots j) p
  hi_empty : ∀ i, MAX_CUDA_BUFFERS ≤ i → s.slots i = emptyBuffer

theorem poolInv_init : PoolInv initPoolState := by
  refine ⟨fun i => Or.inl rfl, fun i p hp => ?_, fun i j p _ hp => ?_, fun i _ => rfl⟩
  · rcases hp with h | h <;> exact absurd h (by simp [initPoolState, emptyBuffer])
  · rcases hp with h | h <;> exact absurd h (by simp [initPoolState, emptyBuffer])

/-- Replacing the slot table by one that mentions (pointwise) no new pointers
and keeps the disjointness shape preserves the invariant; the oracle counter
may only grow. -/
theorem poolInv_pointwise {s : PoolState} (h : PoolInv s) (f' : ℕ → cuda_buffer)
    (n : ℕ) (hn : s.nextPtr ≤ n)
    (hsub : ∀ i p, mentionsBuf (f' i) p → mentionsBuf (s.slots i) p)
    (hnb : ∀ i, (f' i).ptr = none ∨ (f' i).ptr_in_use = none)
    (hhi : ∀ i, MAX_CUDA_BUFFERS ≤ i → f' i = emptyBuffer) :
    PoolInv { slots := f', nextPtr := n } where
  not_both := hnb
  bounded i p hp := lt_of_lt_of_le (h.bounded i p (hsub i p hp)) hn
  distinct i j p hij hpi hpj :=
    h.distinct i j p hij (hsub i p hpi) (hsub j p hpj)
  hi_empty := hhi

theorem mentionsBuf_update_elsewhere {f : ℕ → cuda_buffer} {i : ℕ}
    {b : cuda_buffer} {k p : ℕ} (hk : k ≠ i)
    (hp : mentionsBuf (Function.update f i b k) p) : mentionsBuf (f k) p := by
  rwa [Function.update_noteq hk] at hp

/-- Update of one in-table slot by a buffer whose mentions are contained in
the old slot's mentions. -/
theorem poolInv_update {s : PoolState} (h : PoolInv s) {i : ℕ}
    (hi : i < MAX_CUDA_BUFFERS) {b : cuda_buffer}
    (hsub : ∀ p, mentionsBuf b p → mentionsBuf (s.slots i) p)
    (hnb : b.ptr = none ∨ b.ptr_in_use = none) :
    PoolInv { s with slots := Function.update s.slots i b } := by
  have hs : { slots := Function.update s.slots i b, nextPtr := s.nextPtr } =
      { s with slots := Function.update s.slots i b } := rfl
  rw [← hs]
  apply poolInv_pointwise h _ _ le_rfl
  · intro k p hp
    by_cases hk : k = i
    · subst hk
      rw [Function.update_same] at hp
      exact hsub p hp
    · exact mentionsBuf_update_elsewhere hk hp
  · intro k
    by_cases hk : k = i
    · subst hk
      rw [Function.update_same]
      exact hnb
    · rw [Function.update_noteq hk]
      exact h.not_both k
  · intro k hk
    have : k ≠ i := by omega
    rw [Function.update_noteq this]
    exact h.hi_empty k hk

/-- Registration of a freshly allocated pointer in an in-table slot. -/
theorem poolInv_register {s : PoolState} (h : PoolInv s) {i : ℕ}
    (hi : i < MAX_CUDA_BUFFERS) (size : ℕ) :
    PoolInv { slots := Function.update s.slots i ⟨none, some s.nextPtr, size, 1⟩, nextPtr := s.nextPtr + 1 } := by
  refine ⟨?_, ?_, ?_, ?_⟩
  · intro k
    dsimp only
    by_cases hk : k = i
    · subst hk
      rw [Function.update_same]
      exact Or.inl rfl
    · rw [Function.update_noteq hk]
      exact h.not_both k
  · intro k p hp
    dsimp only at hp ⊢
    by_cases hk : k = i
    · subst hk
      rw [Function.update_same] at hp
      rcases hp with hp | hp
      · exact absurd hp (by simp)
      · have : p = s.nextPtr := by simpa using hp.symm
        omega
    · rw [Function.update_noteq hk] at hp
      exact lt_trans (h.bounded k p hp) (Nat.lt_succ_self _)
  · intro k j p hkj hpk hpj
    dsimp only at hpk hpj
    by_cases hk : k = i
    · subst hk
      rw [Function.update_same] at hpk
      have hp : p = s.nextPtr := by
        rcases hpk with hpk | hpk
        · exact absurd hpk (by simp)
        · simpa using hpk.symm
      have hj : j ≠ k := fun hji => hkj hji.symm
      rw [Function.update_noteq hj] at hpj
      have := h.bounded j p hpj
      omega
    · rw [Function.update_noteq hk] at hpk
      by_cases hj : j = i
      · subst hj
        rw [Function.update_same] at hpj
        have hp : p = s.nextPtr := by
          rcases hpj with hpj | hpj
          · exact absurd hpj (by simp)
          · simpa using hpj.symm
        have := h.bounded k p hpk
        omega
      · rw [Function.update_noteq hj] at hpj
        exact h.distinct k j p hkj hpk hpj
  · intro k hk
    have hki : k ≠ i := by
      have : i < k := lt_of_lt_of_le hi hk
      omega
    dsimp only
    rw [Function.update_noteq hki]
    exact h.hi_empty k hk

theorem poolInv_malloc (s : PoolState) (size : ℕ) (h : PoolInv s) :
    PoolInv (ggml_cuda_pool_malloc s size).1 := by
  unfold ggml_cuda_pool_malloc
  rcases hscan : pool_scan s.slots size (min_size_diff_ok size)
      (List.range MAX_CUDA_BUFFERS) none SIZE_MAX64 with ⟨best, d⟩
  cases best with
  | some i =>
    dsimp only
    have hmem : i ∈ List.range MAX_CUDA_BUFFERS ∧ poolFits s.slots size i := by
      rcases pool_scan_some_mem_fit s.slots size _ _ _ _ _ _ hscan with h1 | h2
      · exact absurd h1 (by simp)
      · exact h2
    apply poolInv_update h (List.mem_range.mp hmem.1)
    · intro p hp
      rcases hp with hp | hp
      · exact absurd hp (by simp)
      · exact Or.inl hp
    · exact Or.inl rfl
  | none =>
    dsimp only
    rcases hfind : (List.range MAX_CUDA_BUFFERS).find?
        (fun i => decide ((s.slots i).ptr = none ∧ (s.slots i).ptr_in_use = none)) with _ | i
    · dsimp only
      have hs : ({ s with nextPtr := s.nextPtr + 1 } : PoolState)
          = { slots := s.slots, nextPtr := s.nextPtr + 1 } := rfl
      rw [hs]
      exact poolInv_pointwise h s.slots (s.nextPtr + 1) (Nat.le_succ _)
        (fun i p hp => hp) h.not_both h.hi_empty
    · dsimp only
      have hi : i < MAX_CUDA_BUFFERS :=
        List.mem_range.mp (List.mem_of_find?_eq_some hfind)
      exact poolInv_register h hi size

theorem poolInv_free (s : PoolState) (ptr size : ℕ) (h : PoolInv s) :
    PoolInv (ggml_cuda_pool_free s ptr size).1 := by
  unfold ggml_cuda_pool_free
  rcases hfind : (List.range MAX_CUDA_BUFFERS).find?
      (fun i => decide ((s.slots i).ptr = none ∧ (s.slots i).ptr_in_use = some ptr)) with _ | i
  · exact h
  · dsimp only
    have hi : i < MAX_CUDA_BUFFERS :=
      List.mem_range.mp (List.mem_of_find?_eq_some hfind)
    have hcond : (s.slots i).ptr = none ∧ (s.slots i).ptr_in_use = some ptr := by
      have hp := List.find?_some hfind
      simpa using hp
    apply poolInv_update h hi
    · intro p hp
      rcases hp with hp | hp
      · have : p = ptr := by simpa using hp.symm
        subst this
        exact Or.inr hcond.2
      · exact absurd hp (by simp)
    · exact Or.inr rfl

theorem poolInv_unallocate (s : PoolState) (ptr : ℕ) (h : PoolInv s) :
    PoolInv (ggml_cuda_pool_unallocate s ptr) := by
  unfold ggml_cuda_pool_unallocate
  rcases hfind : (List.range MAX_CUDA_BUFFERS).find?
      (fun i => decide ((s.slots i).ptr = some ptr ∨ (s.slots i).ptr_in_use = some ptr)) with _ | i
  · exact h
  · dsimp only
    have hi : i < MAX_CUDA_BUFFERS :=
      List.mem_range.mp (List.mem_of_find?_eq_some hfind)
    apply poolInv_update h hi
    · intro p hp
      rcases hp with hp | hp
      · exact absurd hp (by simp [emptyBuffer])
      · exact absurd hp (by simp [emptyBuffer])
    · exact Or.inl rfl

theorem poolInv_purge (s : PoolState) (m : ℕ) (h : PoolInv s) :
    PoolInv (ggml_cuda_pool_purge_buffers_with_access_count s m) := by
  unfold ggml_cuda_pool_purge_buffers_with_access_count
  have hs : ∀ f', ({ s with slots := f' } : PoolState)
      = { slots := f', nextPtr := s.nextPtr } := fun _ => rfl
  rw [hs]
  apply poolInv_pointwise h _ _ le_rfl
  · intro i p hp
    split at hp
    · exact absurd hp (by rcases hp with hp | hp <;> simp [mentionsBuf, emptyBuffer])
    · exact hp
  · intro i
    split
    · exact Or.inl rfl
    · exact h.not_both i
  · intro i hi
    rw [if_neg]
    · exact h.hi_empty i hi
    · intro hcontra
      omega

theorem poolInv_reset (s : PoolState) (h : PoolInv s) :
    PoolInv (ggml_cuda_pool_reset_all_counters s) := by
  unfold ggml_cuda_pool_reset_all_counters
  have hs : ∀ f', ({ s with slots := f' } : PoolState)
      = { slots := f', nextPtr := s.nextPtr } := fun _ => rfl
  rw [hs]
  apply poolInv_pointwise h _ _ le_rfl
  · intro i p hp
    split at hp
    · exact hp
    · exact hp
  · intro i
    split
    · exact h.not_both i
    · exact h.not_both i
  · intro i hi
    rw [if_neg]
    · exact h.hi_empty i hi
    · intro hcontra
      omega

theorem poolInv_apply (s : PoolState) (op : PoolOp) (h : PoolInv s) :
    PoolInv (applyPoolOp s op) := by
  cases op with
  | malloc size => exact poolInv_malloc s size h
  | free ptr size => exact poolInv_free s ptr size h
  | unallocate ptr => exact poolInv_unallocate s ptr h
  | purge m => exact poolInv_purge s m h
  | resetCounters => exact poolInv_reset s h

theorem poolInv_run (ops : List PoolOp) : PoolInv (runPool ops) := by
  have hfold : ∀ (l : List PoolOp) (s : PoolState), PoolInv s →
      PoolInv (l.foldl applyPoolOp s) := by
    intro l
    induction l with
    | nil => exact fun s hs => hs
    | cons a t ih => exact fun s hs => ih _ (poolInv_apply s a hs)
  exact hfold ops initPoolState poolInv_init

/-- C5 (confirmed). After any sequence of pool operations starting from the
initial (empty) pool, no slot has both its free pointer and its in-use
pointer set — each slot is in exactly one of the states empty / free /
in-use — and no two distinct slots that are simultaneously in-use hold the
same pointer value. -/
theorem C5_pool_slot_invariant (ops : List PoolOp) :
    (∀ i, ((runPool ops).slots i).ptr = none ∨
      ((runPool ops).slots i).ptr_in_use = none) ∧
    (∀ i j p, i ≠ j → ((runPool ops).slots i).ptr_in_use = some p →
      ((runPool ops).slots j).ptr_in_use ≠ some p) := by
  have h := poolInv_run ops
  exact ⟨h.not_both, fun i j p hij hpi hpj =>
    h.distinct i j p hij (Or.inr hpi) (Or.inr hpj)⟩

/-- Witness for `C5_pool_slot_invariant`: two consecutive allocations hold
distinct pointers (slots 0 and 1 are both in-use after two mallocs, with
pointers 0 and 1). -/
theorem C5_pool_slot_invariant_witness :
    ((runPool [PoolOp.malloc 100, PoolOp.malloc 200]).slots 0).ptr_in_use = some 0 ∧
    ((runPool [PoolOp.malloc 100, PoolOp.malloc 200]).slots 1).ptr_in_use ≠ some 0 ∧
    ((runPool [PoolOp.malloc 100, PoolOp.malloc 200]).slots 0).ptr = none :=
  ⟨by decide,
   (C5_pool_slot_invariant [PoolOp.malloc 100, PoolOp.malloc 200]).2 0 1 0
     (by decide) (by decide),
   by decide⟩

/-- Postcondition of a pool allocation served from the free list: some
fitting free slot is selected, its pointer is handed out with the slot's
recorded size as actual size and no raw device allocation, the slot is marked
in-use with its access counter incremented, and the slot's size overhead is
within the 5% tolerance or minimal among all fitting free slots. -/
def MallocReuseSpec (s : PoolState) (size : ℕ) : Prop :=
  ∃ i, i < MAX_CUDA_BUFFERS ∧ poolFits s.slots size i ∧
    (ggml_cuda_pool_malloc s size).2.ptr = (s.slots i).ptr ∧
    (ggml_cuda_pool_malloc s size).2.actual_size = (s.slots i).size ∧
    (ggml_cuda_pool_malloc s size).2.rawAlloc = false ∧
    (ggml_cuda_pool_malloc s size).1.nextPtr = s.nextPtr ∧
    ((ggml_cuda_pool_malloc s size).1.slots i).ptr = none ∧
    ((ggml_cuda_pool_malloc s size).1.slots i).ptr_in_use = (s.slots i).ptr ∧
    ((ggml_cuda_pool_malloc s size).1.slots i).access_count
      = (s.slots i).access_count + 1 ∧
    ((s.slots i).size - size < min_size_diff_ok size ∨
      ∀ j, j < MAX_CUDA_BUFFERS → poolFits s.slots size j →
        (s.slots i).size - size ≤ (s.slots j).size - size)

/-- C4 (confirmed). Whenever a free slot of sufficient size exists (sizes
being `size_t` values and the request nonzero), `ggml_cuda_pool_malloc`
serves the request from the pool: it returns a fitting slot's pointer
without a raw device allocation, marks the slot in-use, increments its
access counter, and the chosen slot's overhead is within the 5% early-stop
tolerance or is the true minimum.  The second conjunct is Scenario B:
allocate 64 KiB, free it, request 60 KiB — the freed pointer (pointer 0,
the first handed out by the device oracle) is returned again with no new
device allocation. -/
theorem C4_pool_malloc_best_fit :
    (∀ (s : PoolState) (size : ℕ), 0 < size →
      (∀ i, i < MAX_CUDA_BUFFERS → (s.slots i).size < 2 ^ 64) →
      (∃ i, i < MAX_CUDA_BUFFERS ∧ poolFits s.slots size i) →
      MallocReuseSpec s size) ∧
    ((ggml_cuda_pool_malloc initPoolState 65536).2.ptr = some 0 ∧
     (ggml_cuda_pool_malloc (runPool [PoolOp.malloc 65536, PoolOp.free 0 65536]) 61440).2
       = { ptr := some 0, actual_size := 65536, rawAlloc := false, warned := false }) := by
  constructor
  · rintro s size hsz hbound ⟨i0, hi0, hfit0⟩
    have hsome := pool_scan_finds s.slots size (min_size_diff_ok size) hsz
      (List.range MAX_CUDA_BUFFERS) none SIZE_MAX64 (fun _ => rfl)
      ⟨i0, List.mem_range.mpr hi0, hfit0, hbound i0 hi0⟩
    rcases hscan : pool_scan s.slots size (min_size_diff_ok size)
        (List.range MAX_CUDA_BUFFERS) none SIZE_MAX64 with ⟨best, d⟩
    rw [hscan] at hsome
    cases best with
    | none => simp at hsome
    | some c =>
      have hmem : c ∈ List.range MAX_CUDA_BUFFERS ∧ poolFits s.slots size c := by
        rcases pool_scan_some_mem_fit s.slots size _ _ _ _ _ _ hscan with h1 | h2
        · exact absurd h1 (by simp)
        · exact h2
      obtain ⟨⟨hcfit, hcdiff⟩, hdisj⟩ :=
        pool_scan_min s.slots size (min_size_diff_ok size) _ _ _ _ _
          (fun j hj => absurd hj (by simp)) hscan
      have hM : ggml_cuda_pool_malloc s size =
          ({ s with slots := Function.update s.slots c ⟨none, (s.slots c).ptr, (s.slots c).size, (s.slots c).access_count + 1⟩ },
           { ptr := (s.slots c).ptr, actual_size := (s.slots c).size
             rawAlloc := false, warned := false }) := by
        unfold ggml_cuda_pool_malloc
        rw [hscan]
      refine ⟨c, List.mem_range.mp hmem.1, hcfit, ?_, ?_, ?_, ?_, ?_, ?_, ?_, ?_⟩
      · rw [hM]
      · rw [hM]
      · rw [hM]
      · rw [hM]
      · rw [hM]
        dsimp only
        rw [Function.update_same]
      · rw [hM]
        dsimp only
        rw [Function.update_same]
      · rw [hM]
        dsimp only
        rw [Function.update_same]
      · rcases hdisj with hl | ⟨-, hall⟩
        · exact Or.inl (hcdiff ▸ hl)
        · refine Or.inr fun j hj hjfit => ?_
          have := hall j (List.mem_range.mpr hj) hjfit
          omega
  · exact ⟨by decide, by decide⟩

/-- Witness for `C4_pool_malloc_best_fit`: its general part applied to the
Scenario B state (one 64 KiB slot freed) and a 60 KiB request. -/
theorem C4_pool_malloc_best_fit_witness :
    0 < 61440 ∧
    (∀ i, i < MAX_CUDA_BUFFERS →
      ((runPool [PoolOp.malloc 65536, PoolOp.free 0 65536]).slots i).size < 2 ^ 64) ∧
    (∃ i, i < MAX_CUDA_BUFFERS ∧
      poolFits (runPool [PoolOp.malloc 65536, PoolOp.free 0 65536]).slots 61440 i) ∧
    MallocReuseSpec (runPool [PoolOp.malloc 65536, PoolOp.free 0 65536]) 61440 :=
  ⟨by norm_num, by decide, ⟨0, by decide⟩,
   C4_pool_malloc_best_fit.1 (runPool [PoolOp.malloc 65536, PoolOp.free 0 65536])
     61440 (by norm_num) (by decide) ⟨0, by decide⟩⟩

/-- The C6 counterexample configuration: every slot of the table occupied
(in use), so neither a fit nor an empty registration slot exists. -/
def fullPool : PoolState :=
  { slots := fun i =>
      if i < 256 then
        { ptr := none, ptr_in_use := some (i + 1), size := 1, access_count := 1 }
      else emptyBuffer
    nextPtr := 300 }

/-- C6 counterexample.  The claim says that with a full slot table `allocate`
"skips slot registration with a warning"; the code's allocation path prints
nothing (the only pool-full warning, `WARNING (FREE): CUDA BUFFER POOL
FULL`, is in `ggml_cuda_pool_free`).  On a full table the raw allocation
still happens and the fresh pointer is returned, but `warned = false`. -/
theorem C6_counterexample :
    (ggml_cuda_pool_malloc fullPool 100).2.rawAlloc = true ∧
    (ggml_cuda_pool_malloc fullPool 100).2.ptr = some 300 ∧
    (ggml_cuda_pool_malloc fullPool 100).2.warned = false := by
  decide

/-- C6 amended: with a full slot table, `allocate` still performs the raw
device allocation, silently (without a warning) skips registration — the
slot table is left unchanged — and returns the fresh pointer; `free` of a
pointer matching no in-use slot releases the memory directly to the device
and emits the warning; and no slot outside the fixed 256-entry table is ever
tracked. -/
theorem C6_pool_overflow_degradation :
    (∀ (s : PoolState) (size : ℕ),
      (∀ j, j < MAX_CUDA_BUFFERS → ¬ poolFits s.slots size j) →
      (∀ j, j < MAX_CUDA_BUFFERS →
        ¬ ((s.slots j).ptr = none ∧ (s.slots j).ptr_in_use = none)) →
      (ggml_cuda_pool_malloc s size).2.rawAlloc = true ∧
      (ggml_cuda_pool_malloc s size).2.ptr = some s.nextPtr ∧
      (ggml_cuda_pool_malloc s size).2.warned = false ∧
      (ggml_cuda_pool_malloc s size).1.slots = s.slots ∧
      (ggml_cuda_pool_malloc s size).1.nextPtr = s.nextPtr + 1) ∧
    (∀ (s : PoolState) (ptr size : ℕ),
      (∀ j, j < MAX_CUDA_BUFFERS →
        ¬ ((s.slots j).ptr = none ∧ (s.slots j).ptr_in_use = some ptr)) →
      (ggml_cuda_pool_free s ptr size).1 = s ∧
      (ggml_cuda_pool_free s ptr size).2.warned = true ∧
      (ggml_cuda_pool_free s ptr size).2.deviceFreed = true) ∧
    (∀ (ops : List PoolOp) (i : ℕ), MAX_CUDA_BUFFERS ≤ i →
      (runPool ops).slots i = emptyBuffer) := by
  refine ⟨?_, ?_, ?_⟩
  · intro s size hnofit hnoempty
    have hscan : pool_scan s.slots size (min_size_diff_ok size)
        (List.range MAX_CUDA_BUFFERS) none SIZE_MAX64 = (none, SIZE_MAX64) :=
      pool_scan_none s.slots size _ _ _
        fun j hj => hnofit j (List.mem_range.mp hj)
    have hfind : (List.range MAX_CUDA_BUFFERS).find?
        (fun i => decide ((s.slots i).ptr = none ∧ (s.slots i).ptr_in_use = none))
        = none := by
      rw [List.find?_eq_none]
      intro j hj
      simpa using hnoempty j (List.mem_range.mp hj)
    have hM : ggml_cuda_pool_malloc s size =
        ({ s with nextPtr := s.nextPtr + 1 },
         { ptr := some s.nextPtr, actual_size := size
           rawAlloc := true, warned := false }) := by
      unfold ggml_cuda_pool_malloc
      rw [hscan]
      dsimp only
      rw [hfind]
    rw [hM]
    exact ⟨rfl, rfl, rfl, rfl, rfl⟩
  · intro s ptr size hnomatch
    have hfind : (List.range MAX_CUDA_BUFFERS).find?
        (fun i => decide ((s.slots i).ptr = none ∧ (s.slots i).ptr_in_use = some ptr))
        = none := by
      rw [List.find?_eq_none]
      intro j hj
      simpa using hnomatch j (List.mem_range.mp hj)
    have hF : ggml_cuda_pool_free s ptr size
        = (s, { warned := true, deviceFreed := true }) := by
      unfold ggml_cuda_pool_free
      rw [hfind]
    rw [hF]
    exact ⟨rfl, rfl, rfl⟩
  · intro ops i hi
    exact (poolInv_run ops).hi_empty i hi

/-- Witness for `C6_pool_overflow_degradation`, at the full table
`fullPool`, the unmatched pointer 999, and slot index 256. -/
theorem C6_pool_overflow_degradation_witness :
    (ggml_cuda_pool_malloc fullPool 100).2.rawAlloc = true ∧
    (ggml_cuda_pool_malloc fullPool 100).1.slots = fullPool.slots ∧
    (ggml_cuda_pool_free fullPool 999 0).2.warned = true ∧
    (runPool [PoolOp.malloc 1]).slots 256 = emptyBuffer :=
  ⟨(C6_pool_overflow_degradation.1 fullPool 100 (by decide) (by decide)).1,
   (C6_pool_overflow_degradation.1 fullPool 100 (by decide) (by decide)).2.2.2.1,
   (C6_pool_overflow_degradation.2.1 fullPool 999 0 (by decide)).2.1,
   C6_pool_overflow_degradation.2.2 [PoolOp.malloc 1] 256 le_rfl⟩

/-! ## Operator dispatch (`ggml_cuda_compute_forward`, `ggml_cuda_can_mul_mat`)

The decision logic of `ggml_cuda_compute_forward` (`src/ggml-cuda.cu:7742`)
is pure up to the final `func(...)` call: every `return false` path only reads
tensor/parameter fields.  The embedding returns a `ForwardResult` that records
whether the call reports the operator as handled and which compute function
(if any) it would invoke; `.notHandled` corresponds to `return false` reached
before any buffer allocation, kernel launch or state mutation. -/

inductive ggml_backend where
  | CPU
  | GPU
  | GPU_SPLIT
deriving DecidableEq

inductive cuda_opt_op_force where
  | DEFAULT
  | FORCE_CPU
  | FORCE_BLAS
deriving DecidableEq

inductive ggml_task_type where
  | INIT
  | COMPUTE
  | FINALIZE
deriving DecidableEq

/-- The operator tags of the `ggml_cuda_compute_forward` switch plus a sample
of tags the backend has no strategy for (they hit the `default:` case). -/
inductive ggml_op where
  | NONE
  | DUP
  | ADD
  | MUL
  | GELU
  | SILU
  | NORM
  | RMS_NORM
  | MUL_MAT
  | SCALE
  | CPY
  | CONT
  | RESHAPE
  | VIEW
  | PERMUTE
  | TRANSPOSE
  | DIAG_MASK_INF
  | SOFT_MAX
  | ROPE
  | SUB
  | DIV
  | SUM
  | MEAN
  | REPEAT
  | GET_ROWS
  | FLASH_ATTN
deriving DecidableEq

/-- The compute functions `ggml_cuda_compute_forward` can bind to `func`. -/
inductive ggml_cuda_func where
  | dup
  | add
  | mul
  | gelu
  | silu
  | norm
  | rms_norm
  | mul_mat
  | scale
  | cpy
  | nop
  | diag_mask_inf
  | soft_max
  | rope
deriving DecidableEq

/-- The fields of a tensor (and of its `meta`) that
`ggml_cuda_compute_forward` and `ggml_cuda_can_mul_mat` read.  `none` for a
source backend models a null source pointer. -/
structure TensorView where
  op : ggml_op
  backend : ggml_backend
  force : cuda_opt_op_force
  infoComputeDeviceGPU : Bool
  src0_backend : Option ggml_backend
  src1_backend : Option ggml_backend
deriving DecidableEq

structure ggml_compute_params where
  ith : ℕ
  type : ggml_task_type
deriving DecidableEq

inductive ForwardResult where
  | notHandled
  | handled (dispatched : Option ggml_cuda_func)
deriving DecidableEq

/-- `ggml_cuda_can_mul_mat` (`src/ggml-cuda.cu:7269`): zero devices refuse;
a dst already marked GPU-computable accepts; an explicit force accepts unless
it forces the CPU; otherwise `return true` (the legacy shape test below it is
unreachable). -/
def ggml_cuda_can_mul_mat (numDevices : ℕ) (dst : TensorView) : Bool :=
  if numDevices = 0 then false
  else if dst.infoComputeDeviceGPU then true
  else if dst.force ≠ cuda_opt_op_force.DEFAULT then
    decide (dst.force ≠ cuda_opt_op_force.FORCE_CPU)
  else true

/-- `any_on_device` in `ggml_cuda_compute_forward`. -/
def any_on_device (t : TensorView) : Bool :=
  decide (t.backend = ggml_backend.GPU) ||
  (match t.src0_backend with
   | some b => decide (b = ggml_backend.GPU) || decide (b = ggml_backend.GPU_SPLIT)
   | none => false) ||
  (match t.src1_backend with
   | some b => decide (b = ggml_backend.GPU)
   | none => false)

/-- The `switch (tensor->op)` of `ggml_cuda_compute_forward`: the function
bound to `func`, or `none` when the switch `return false`s. -/
def forward_func (numDevices : ℕ) (t : TensorView) : Option ggml_cuda_func :=
  match t.op with
  | .DUP => if any_on_device t then some .dup else none
  | .ADD => if any_on_device t then some .add else none
  | .MUL => if any_on_device t then some .mul else none
  | .GELU => if any_on_device t then some .gelu else none
  | .SILU => if any_on_device t then some .silu else none
  | .NORM => if any_on_device t then some .norm else none
  | .RMS_NORM => if any_on_device t then some .rms_norm else none
  | .MUL_MAT =>
    if ¬ any_on_device t ∧ ¬ ggml_cuda_can_mul_mat numDevices t then none
    else some .mul_mat
  | .SCALE => if any_on_device t then some .scale else none
  | .CPY => if any_on_device t then some .cpy else none
  | .CONT => if any_on_device t then some .dup else none
  | .RESHAPE => if any_on_device t then some .nop else none
  | .VIEW => if any_on_device t then some .nop else none
  | .PERMUTE => if any_on_device t then some .nop else none
  | .TRANSPOSE => if any_on_device t then some .nop else none
  | .DIAG_MASK_INF => if any_on_device t then some .diag_mask_inf else none
  | .SOFT_MAX => if any_on_device t then some .soft_max else none
  | .ROPE => if any_on_device t then some .rope else none
  | _ => none

/-- `ggml_cuda_compute_forward` (`src/ggml-cuda.cu:7742`). -/
def ggml_cuda_compute_forward (numDevices : ℕ) (params : ggml_compute_params)
    (t : TensorView) : ForwardResult :=
  if t.op = ggml_op.NONE then .handled none
  else if numDevices = 0 then .notHandled
  else if t.force = cuda_opt_op_force.FORCE_CPU then .notHandled
  else
    match forward_func numDevices t with
    | none => .notHandled
    | some f =>
      if params.ith ≠ 0 then .handled none
      else if params.type = ggml_task_type.INIT ∨
          params.type = ggml_task_type.FINALIZE then .handled none
      else .handled (some f)

/-- The operator tags for which the switch has a registered strategy
(everything except `GGML_OP_NONE`, which is short-circuited earlier, and the
`default:` case). -/
def strategyRegistered : ggml_op → Bool
  | .DUP | .ADD | .MUL | .GELU | .SILU | .NORM | .RMS_NORM | .MUL_MAT
  | .SCALE | .CPY | .CONT | .RESHAPE | .VIEW | .PERMUTE | .TRANSPOSE
  | .DIAG_MASK_INF | .SOFT_MAX | .ROPE => true
  | _ => false

/-- C3 counterexample.  For `GGML_OP_MUL_MAT` the not-on-device early-out is
weakened to `!any_on_device && !ggml_cuda_can_mul_mat(...)`, and
`ggml_cuda_can_mul_mat` (reached with `num_devices > 0` and no CPU force)
always returns true, so a matmul whose tensors are all host-resident is still
reported as handled (and dispatched), contradicting the claim that every
recognized tag with no device-resident tensor returns false. -/
theorem C3_counterexample :
    ggml_cuda_compute_forward 1 ⟨0, ggml_task_type.COMPUTE⟩
      ⟨ggml_op.MUL_MAT, ggml_backend.CPU, cuda_opt_op_force.DEFAULT, false,
       some ggml_backend.CPU, some ggml_backend.CPU⟩
      = ForwardResult.handled (some ggml_cuda_func.mul_mat) ∧
    ggml_cuda_compute_forward 1 ⟨0, ggml_task_type.COMPUTE⟩
      ⟨ggml_op.MUL_MAT, ggml_backend.CPU, cuda_opt_op_force.DEFAULT, false,
       some ggml_backend.CPU, some ggml_backend.CPU⟩
      ≠ ForwardResult.notHandled := by
  decide

/-- C3 amended.  `ggml_cuda_compute_forward` returns false — performing no
side effect (no strategy is dispatched; the code on these paths only reads
fields) — when (a) the operator tag has no registered strategy, or (b) the
tag is recognized, is neither `GGML_OP_NONE` (always reported handled) nor
`GGML_OP_MUL_MAT` (handled even off-device, see `C3_counterexample`), and no
involved tensor is device-resident. -/
theorem C3_unhandled_returns_false :
    (∀ (numDevices : ℕ) (params : ggml_compute_params) (t : TensorView),
      strategyRegistered t.op = false → t.op ≠ ggml_op.NONE →
      ggml_cuda_compute_forward numDevices params t = ForwardResult.notHandled) ∧
    (∀ (numDevices : ℕ) (params : ggml_compute_params) (t : TensorView),
      strategyRegistered t.op = true → t.op ≠ ggml_op.MUL_MAT →
      t.backend = ggml_backend.CPU →
      (t.src0_backend = none ∨ t.src0_backend = some ggml_backend.CPU) →
      (t.src1_backend = none ∨ t.src1_backend = some ggml_backend.CPU) →
      ggml_cuda_compute_forward numDevices params t = ForwardResult.notHandled) := by
  constructor
  · intro numDevices params t hreg hnone
    unfold ggml_cuda_compute_forward
    rw [if_neg hnone]
    by_cases hdev : numDevices = 0
    · rw [if_pos hdev]
    · rw [if_neg hdev]
      by_cases hforce : t.force = cuda_opt_op_force.FORCE_CPU
      · rw [if_pos hforce]
      · rw [if_neg hforce]
        have hfunc : forward_func numDevices t = none := by
          unfold forward_func
          cases hop : t.op <;> simp_all [strategyRegistered]
        rw [hfunc]
  · intro numDevices params t hreg hmm hb h0 h1
    have hany : any_on_device t = false := by
      unfold any_on_device
      rcases h0 with h0 | h0 <;> rcases h1 with h1 | h1 <;>
        simp [hb, h0, h1]
    have hnone : t.op ≠ ggml_op.NONE := by
      intro hc
      rw [hc] at hreg
      simp [strategyRegistered] at hreg
    unfold ggml_cuda_compute_forward
    rw [if_neg hnone]
    by_cases hdev : numDevices = 0
    · rw [if_pos hdev]
    · rw [if_neg hdev]
      by_cases hforce : t.force = cuda_opt_op_force.FORCE_CPU
      · rw [if_pos hforce]
      · rw [if_neg hforce]
        have hfunc : forward_func numDevices t = none := by
          unfold forward_func
          cases hop : t.op <;> simp_all [strategyRegistered]
        rw [hfunc]

/-- Witness for `C3_unhandled_returns_false`: an unregistered tag
(`GGML_OP_SUM`) and a recognized all-host tag (`GGML_OP_ADD`), both with one
device present and no CPU force. -/
theorem C3_unhandled_returns_false_witness :
    ggml_cuda_compute_forward 1 ⟨0, ggml_task_type.COMPUTE⟩
      ⟨ggml_op.SUM, ggml_backend.CPU, cuda_opt_op_force.DEFAULT, false,
       some ggml_backend.CPU, none⟩ = ForwardResult.notHandled ∧
    ggml_cuda_compute_forward 1 ⟨0, ggml_task_type.COMPUTE⟩
      ⟨ggml_op.ADD, ggml_backend.CPU, cuda_opt_op_force.DEFAULT, false,
       some ggml_backend.CPU, some ggml_backend.CPU⟩ = ForwardResult.notHandled :=
  ⟨C3_unhandled_returns_false.1 1 ⟨0, ggml_task_type.COMPUTE⟩
      ⟨ggml_op.SUM, ggml_backend.CPU, cuda_opt_op_force.DEFAULT, false,
       some ggml_backend.CPU, none⟩ (by decide) (by decide),
   C3_unhandled_returns_false.2 1 ⟨0, ggml_task_type.COMPUTE⟩
      ⟨ggml_op.ADD, ggml_backend.CPU, cuda_opt_op_force.DEFAULT, false,
       some ggml_backend.CPU, some ggml_backend.CPU⟩ (by decide) (by decide)
      (by decide) (Or.inr (by decide)) (Or.inr (by decide))⟩

/-- C10 (confirmed).  A `GGML_OP_NONE` tensor is reported handled (`return
true`, no function dispatched) by the very first test of
`ggml_cuda_compute_forward`, before the `num_devices == 0` check and before
the `CUDA_OPT_OP_FORCE_CPU` check — so also with zero devices or a
forced-to-CPU node. -/
theorem C10_none_handled_first (numDevices : ℕ) (params : ggml_compute_params)
    (t : TensorView) (h : t.op = ggml_op.NONE) :
    ggml_cuda_compute_forward numDevices params t = ForwardResult.handled none := by
  unfold ggml_cuda_compute_forward
  rw [if_pos h]

/-- Witness for `C10_none_handled_first`: zero devices and a node forced to
the CPU — the no-op is still reported as handled by the backend. -/
theorem C10_none_handled_first_witness :
    ggml_cuda_compute_forward 0 ⟨0, ggml_task_type.COMPUTE⟩
      ⟨ggml_op.NONE, ggml_backend.CPU, cuda_opt_op_force.FORCE_CPU, false,
       none, none⟩ = ForwardResult.handled none :=
  C10_none_handled_first 0 ⟨0, ggml_task_type.COMPUTE⟩
    ⟨ggml_op.NONE, ggml_backend.CPU, cuda_opt_op_force.FORCE_CPU, false,
     none, none⟩ rfl

/-! ## Capability-tier substitution in `ggml_cuda_op` (`src/ggml-cuda.cu:6875`)

Inside the per-device loop of a split invocation, a device below the
capability tier demanded by the selected matrix-multiply strategy triggers
`GGML_ASSERT(id != g_main_device)` and, for the 8-bit-exponent cuBLAS
strategy only, replaces the local variable `op` by the 16-bit-float wrapper.
`op` is never restored, so the replacement also applies to every device
visited after the deficient one.  `GGML_ASSERT` failures (deficient main
device, or any other strategy) are modelled as `.error ()`. -/

structure DeviceProps where
  major : ℕ
  minor : ℕ
deriving DecidableEq

/-- The `op_name` strings that `ggml_cuda_op` compares with `strcmp`. -/
inductive mul_mat_op_name where
  | cublas
  | cublas_f16
  | cublas_f8e4
  | mul_mat_q
  | elementwise
deriving DecidableEq

/-- `min_capability_major / min_capability_minor` chosen from `op_name`. -/
def min_capability : mul_mat_op_name → ℕ × ℕ
  | .cublas_f16 => (6, 1)
  | .cublas_f8e4 => (8, 9)
  | .mul_mat_q => (6, 1)
  | _ => (0, 0)

/-- The `ggml_cuda_op_t` function pointers relevant to the substitution. -/
inductive cuda_op_fn where
  | mul_mat_cublas
  | mul_mat_cublas_f16_f32_wrapper
  | mul_mat_cublas_f8e4_f32_wrapper
  | mul_mat_q
  | other
deriving DecidableEq

/-- Negation of the device-capability test
`major > min_major || (major == min_major && minor >= min_minor)`. -/
def lacksCapability (props : ℕ → DeviceProps) (mj mn id : ℕ) : Prop :=
  ¬ ((props id).major > mj ∨ ((props id).major = mj ∧ mn ≤ (props id).minor))

instance (props : ℕ → DeviceProps) (mj mn id : ℕ) :
    Decidable (lacksCapability props mj mn id) :=
  inferInstanceAs (Decidable (¬ _))

/-- The capability check and substitution as executed along the per-device
loop (split invocation: no device is skipped), threading the mutable `op`. -/
def ggml_cuda_op_assign (props : ℕ → DeviceProps) (mainDevice : ℕ)
    (op_name : mul_mat_op_name) :
    List ℕ → cuda_op_fn → Except Unit (List cuda_op_fn)
  | [], _ => .ok []
  | id :: rest, op =>
    if (min_capability op_name).1 ≠ 0 ∧
        lacksCapability props (min_capability op_name).1 (min_capability op_name).2 id then
      if id = mainDevice then .error ()
      else if op_name = mul_mat_op_name.cublas_f8e4 then
        match ggml_cuda_op_assign props mainDevice op_name rest
            cuda_op_fn.mul_mat_cublas_f16_f32_wrapper with
        | .ok l => .ok (cuda_op_fn.mul_mat_cublas_f16_f32_wrapper :: l)
        | .error e => .error e
      else .error ()
    else
      match ggml_cuda_op_assign props mainDevice op_name rest op with
      | .ok l => .ok (op :: l)
      | .error e => .error e

/-- Per-invocation strategy assignment: the strategies the devices
`0 .. deviceCount-1` end up computing with (or `.error` when a
`GGML_ASSERT` aborts the process). -/
def ggml_cuda_op_strategies (props : ℕ → DeviceProps) (deviceCount mainDevice : ℕ)
    (op_name : mul_mat_op_name) (op0 : cuda_op_fn) : Except Unit (List cuda_op_fn) :=
  ggml_cuda_op_assign props mainDevice op_name (List.range deviceCount) op0

/-- Reference form of the assignment: each device gets the substitute as soon
as some device at or before it lacked the tier. -/
def annotateAssign (defic : ℕ → Prop) [DecidablePred defic] (sub : cuda_op_fn) :
    List ℕ → cuda_op_fn → List cuda_op_fn
  | [], _ => []
  | id :: rest, op =>
    (if defic id then sub else op) ::
      annotateAssign defic sub rest (if defic id then sub else op)

theorem annotateAssign_length (defic : ℕ → Prop) [DecidablePred defic]
    (sub : cuda_op_fn) :
    ∀ (l : List ℕ) (op : cuda_op_fn), (annotateAssign defic sub l op).length = l.length := by
  intro l
  induction l with
  | nil => intro op; rfl
  | cons id rest ih => intro op; simp [annotateAssign, ih]

/-- Once the threaded strategy has become `sub`, it stays `sub`. -/
theorem annotateAssign_const_sub (defic : ℕ → Prop) [DecidablePred defic]
    (sub : cuda_op_fn) :
    ∀ (l : List ℕ) (k : ℕ), k < l.length →
      (annotateAssign defic sub l sub)[k]? = some sub := by
  intro l
  induction l with
  | nil => intro k hk; simp at hk
  | cons id rest ih =>
    intro k hk
    have hop : (if defic id then sub else sub) = sub := by split <;> rfl
    cases k with
    | zero => simp [annotateAssign, hop]
    | succ k =>
      rw [annotateAssign, List.getElem?_cons_succ, hop]
      exact ih k (by simpa using hk)

/-- A device at or after a tier-deficient device computes with the
substitute. -/
theorem annotateAssign_getElem_sub (defic : ℕ → Prop) [DecidablePred defic]
    (sub : cuda_op_fn) :
    ∀ (l : List ℕ) (op : cuda_op_fn) (k : ℕ), k < l.length →
      (∃ j ∈ l.take (k + 1), defic j) →
      (annotateAssign defic sub l op)[k]? = some sub := by
  intro l
  induction l with
  | nil => intro op k hk; simp at hk
  | cons id rest ih =>
    intro op k hk hex
    cases k with
    | zero =>
      rcases hex with ⟨j, hj, hdj⟩
      have : j = id := by simpa using hj
      subst this
      simp [annotateAssign, hdj]
    | succ k =>
      rw [annotateAssign, List.getElem?_cons_succ]
      by_cases h : defic id
      · rw [if_pos h]
        exact annotateAssign_const_sub defic sub rest k (by simpa using hk)
      · rw [if_neg h]
        apply ih op k (by simpa using hk)
        rcases hex with ⟨j, hj, hdj⟩
        rcases (by simpa [List.take_cons] using hj :
            j = id ∨ j ∈ rest.take (k + 1)) with rfl | hj'
        · exact absurd hdj h
        · exact ⟨j, hj', hdj⟩

/-- A device visited before the first tier-deficient device keeps the
originally selected strategy. -/
theorem annotateAssign_getElem_keep (defic : ℕ → Prop) [DecidablePred defic]
    (sub : cuda_op_fn) :
    ∀ (l : List ℕ) (op : cuda_op_fn) (k : ℕ), k < l.length →
      (∀ j ∈ l.take (k + 1), ¬ defic j) →
      (annotateAssign defic sub l op)[k]? = some op := by
  intro l
  induction l with
  | nil => intro op k hk; simp at hk
  | cons id rest ih =>
    intro op k hk hall
    have hid : ¬ defic id := hall id (by simp [List.take_cons])
    cases k with
    | zero => simp [annotateAssign, hid]
    | succ k =>
      rw [annotateAssign, List.getElem?_cons_succ, if_neg hid]
      apply ih op k (by simpa using hk)
      intro j hj
      exact hall j (by simp [List.take_cons]; right; exact hj)

theorem ggml_cuda_op_assign_f8e4 (props : ℕ → DeviceProps) (mainDevice : ℕ) :
    ∀ (l : List ℕ),
      (∀ id ∈ l, lacksCapability props 8 9 id → id ≠ mainDevice) →
      ∀ op, ggml_cuda_op_assign props mainDevice mul_mat_op_name.cublas_f8e4 l op
        = .ok (annotateAssign (lacksCapability props 8 9)
            cuda_op_fn.mul_mat_cublas_f16_f32_wrapper l op) := by
  intro l
  induction l with
  | nil => intro _ op; rfl
  | cons id rest ih =>
    intro hsafe op
    rw [ggml_cuda_op_assign, annotateAssign]
    by_cases h : lacksCapability props 8 9 id
    · rw [if_pos (by exact ⟨by simp [min_capability], by simpa [min_capability] using h⟩)]
      rw [if_neg (hsafe id (List.mem_cons_self id rest) h)]
      rw [if_pos rfl]
      rw [ih (fun j hj => hsafe j (List.mem_cons_of_mem id hj)) _]
      rw [if_pos h]
    · rw [if_neg (by intro hc; exact h hc.2)]
      rw [ih (fun j hj => hsafe j (List.mem_cons_of_mem id hj)) _]
      rw [if_neg h]

instance : DecidableEq (Except Unit (List cuda_op_fn)) := fun a b => by
  cases a with
  | ok x =>
    cases b with
    | ok y => exact if h : x = y then isTrue (by rw [h]) else isFalse (by simp [h])
    | error f => exact isFalse (by simp)
  | error e =>
    cases b with
    | ok y => exact isFalse (by simp)
    | error f => exact isTrue (by cases e; cases f; rfl)

/-- The C7 counterexample configuration: two devices, device 0 below tier
8.9, device 1 (the main device) at tier 9.0. -/
def c7CounterProps : ℕ → DeviceProps := fun i =>
  if i = 0 then ⟨7, 0⟩ else ⟨9, 0⟩

/-- C7 counterexample.  With the 8-bit-exponent cuBLAS strategy selected,
device 0 lacking the 8.9 tier and device 1 being the fully capable main
device, the substitution performed for device 0 persists in the loop-local
`op`, so device 1 also computes with the 16-bit-float wrapper — refuting the
claim that only the deficient device gets the substitute while other devices
keep the originally selected strategy. -/
theorem C7_counterexample :
    ggml_cuda_op_strategies c7CounterProps 2 1 mul_mat_op_name.cublas_f8e4
        cuda_op_fn.mul_mat_cublas_f8e4_f32_wrapper
      = .ok [cuda_op_fn.mul_mat_cublas_f16_f32_wrapper,
             cuda_op_fn.mul_mat_cublas_f16_f32_wrapper] ∧
    ¬ lacksCapability c7CounterProps 8 9 1 := by
  decide

/-- C7 amended.  In a split invocation of the 8-bit-exponent cuBLAS strategy
where the main device meets the required tier, the operation does not fail:
the assignment yields one strategy per device, every device at or after a
tier-deficient device computes with the 16-bit-float cuBLAS substitute (the
substitution is never undone, so it is NOT limited to the deficient device),
and devices visited before the first deficient device keep the original
8-bit-exponent strategy. -/
theorem C7_capability_downgrade (props : ℕ → DeviceProps)
    (deviceCount mainDevice : ℕ)
    (hmain : ¬ lacksCapability props 8 9 mainDevice) :
    ∃ l, ggml_cuda_op_strategies props deviceCount mainDevice
        mul_mat_op_name.cublas_f8e4 cuda_op_fn.mul_mat_cublas_f8e4_f32_wrapper
        = .ok l ∧
      l.length = deviceCount ∧
      (∀ id, id < deviceCount → (∃ j, j ≤ id ∧ lacksCapability props 8 9 j) →
        l[id]? = some cuda_op_fn.mul_mat_cublas_f16_f32_wrapper) ∧
      (∀ id, id < deviceCount → (∀ j, j ≤ id → ¬ lacksCapability props 8 9 j) →
        l[id]? = some cuda_op_fn.mul_mat_cublas_f8e4_f32_wrapper) := by
  have hsafe : ∀ id ∈ List.range deviceCount, lacksCapability props 8 9 id →
      id ≠ mainDevice := fun id _ hd he => hmain (he ▸ hd)
  refine ⟨_, ggml_cuda_op_assign_f8e4 props mainDevice (List.range deviceCount)
      hsafe cuda_op_fn.mul_mat_cublas_f8e4_f32_wrapper, ?_, ?_, ?_⟩
  · rw [annotateAssign_length]
    exact List.length_range deviceCount
  · intro id hid ⟨j, hji, hdj⟩
    apply annotateAssign_getElem_sub _ _ _ _ id (by simpa using hid)
    have htake : (List.range deviceCount).take (id + 1) = List.range (id + 1) := by
      rw [List.take_range]
      congr 1
      omega
    rw [htake]
    exact ⟨j, List.mem_range.mpr (by omega), hdj⟩
  · intro id hid hall
    apply annotateAssign_getElem_keep _ _ _ _ id (by simpa using hid)
    have htake : (List.range deviceCount).take (id + 1) = List.range (id + 1) := by
      rw [List.take_range]
      congr 1
      omega
    rw [htake]
    intro j hj
    exact hall j (Nat.lt_succ_iff.mp (List.mem_range.mp hj))

/-- The C7 witness configuration: two devices, main device 0 at tier 9.0,
device 1 below tier 8.9. -/
def c7WitnessProps : ℕ → DeviceProps := fun i =>
  if i = 1 then ⟨7, 0⟩ else ⟨9, 0⟩

/-- Witness for `C7_capability_downgrade` at `c7WitnessProps` (deficient
device 1, capable main device 0): device 0 keeps the 8-bit-exponent
strategy, device 1 gets the 16-bit-float substitute, and the assignment
succeeds. -/
theorem C7_capability_downgrade_witness :
    ¬ lacksCapability c7WitnessProps 8 9 0 ∧
    ∃ l, ggml_cuda_op_strategies c7WitnessProps 2 0
        mul_mat_op_name.cublas_f8e4 cuda_op_fn.mul_mat_cublas_f8e4_f32_wrapper
        = .ok l ∧
      l.length = 2 ∧
      (∀ id, id < 2 → (∃ j, j ≤ id ∧ lacksCapability c7WitnessProps 8 9 j) →
        l[id]? = some cuda_op_fn.mul_mat_cublas_f16_f32_wrapper) ∧
      (∀ id, id < 2 → (∀ j, j ≤ id → ¬ lacksCapability c7WitnessProps 8 9 j) →
        l[id]? = some cuda_op_fn.mul_mat_cublas_f8e4_f32_wrapper) :=
  ⟨by decide, C7_capability_downgrade c7WitnessProps 2 0 (by decide)⟩

/-! ## Cross-device ordering in `ggml_cuda_op`

The stream-ordering calls a split invocation with more than one device
issues, in program order (`src/ggml-cuda.cu`):
* line 6867-6869: `cudaEventRecord(src0_extra->events[g_main_device],
  g_cudaStreams_main[g_main_device])` before the per-device loop;
* line 6913-6916: for each visited non-main device,
  `cudaStreamWaitEvent(stream_id, events[g_main_device])` before any staging
  copy, conversion or kernel on that stream;
* line 7156-7159: after the device's compute/copy-back work,
  `cudaEventRecord(events[id], stream_id)` (re-issued per inner iteration;
  abstracted here to one work/record pair per device);
* line 7216-7225: `cudaStreamWaitEvent(stream_main, events[id])` for every
  non-main device that was used;
* line 7227-7230: `cudaDeviceSynchronize()` iff the destination tensor is
  host-resident.
A device is `used` when its row window is non-empty (it allocated buffers);
an unused device contributes nothing. -/

inductive SyncAction where
  | eventRecord (dev stream : ℕ)
  | streamWaitEvent (stream eventDev : ℕ)
  | deviceWork (stream : ℕ)
  | deviceSynchronize
deriving DecidableEq

/-- The stream a call is submitted to (`deviceSynchronize` blocks the host
thread instead). -/
def streamOf : SyncAction → Option ℕ
  | .eventRecord _ s => some s
  | .streamWaitEvent s _ => some s
  | .deviceWork s => some s
  | .deviceSynchronize => none

/-- The per-device segment of the trace. -/
def deviceSegment (mainDevice : ℕ) (used : ℕ → Bool) (id : ℕ) : List SyncAction :=
  if used id then
    (if id ≠ mainDevice then [SyncAction.streamWaitEvent id mainDevice] else []) ++
    [SyncAction.deviceWork id] ++
    (if id ≠ mainDevice then [SyncAction.eventRecord id id] else [])
  else []

/-- The trace of stream-ordering calls of one split invocation of
`ggml_cuda_op` (`split && g_device_count > 1`). -/
def ggml_cuda_op_trace (deviceCount mainDevice : ℕ) (used : ℕ → Bool)
    (dstIsCPU : Bool) : List SyncAction :=
  SyncAction.eventRecord mainDevice mainDevice ::
  (((List.range deviceCount).flatMap (deviceSegment mainDevice used)) ++
   (((List.range deviceCount).flatMap fun id =>
      if id ≠ mainDevice ∧ used id = true
      then [SyncAction.streamWaitEvent mainDevice id] else []) ++
    (if dstIsCPU then [SyncAction.deviceSynchronize] else [])))

theorem sublist_flatMap {α β : Type} (f : α → List β) {a : α} {l : List α}
    (h : a ∈ l) : (f a).Sublist (l.flatMap f) := by
  induction l with
  | nil => simp at h
  | cons b t ih =>
    rcases List.mem_cons.mp h with rfl | h
    · rw [List.flatMap_cons]
      exact (List.sublist_append_left _ _).trans (List.Sublist.refl _)
    · rw [List.flatMap_cons]
      exact ((ih h).trans (List.sublist_append_right _ _))

theorem filter_flatMap {α β : Type} (l : List α) (f : α → List β) (p : β → Bool) :
    (l.flatMap f).filter p = l.flatMap fun a => (f a).filter p := by
  induction l with
  | nil => simp
  | cons a t ih => simp [List.filter_append, ih]

theorem flatMap_eq_of_unique {α β : Type} {l : List α} (hnd : l.Nodup) {x : α}
    (hx : x ∈ l) (g : α → List β) (h0 : ∀ a ∈ l, a ≠ x → g a = []) :
    l.flatMap g = g x := by
  induction l with
  | nil => simp at hx
  | cons b t ih =>
    rw [List.flatMap_cons]
    rcases List.mem_cons.mp hx with rfl | hx'
    · have ht : ∀ a ∈ t, g a = [] := by
        intro a ha
        apply h0 a (List.mem_cons_of_mem _ ha)
        intro hab
        subst hab
        exact (List.nodup_cons.mp hnd).1 ha
      have : t.flatMap g = [] := List.flatMap_eq_nil_iff.mpr ht
      rw [this, List.append_nil]
    · have hb : g b = [] := h0 b (List.mem_cons_self b t) (by
        intro hbx
        subst hbx
        exact (List.nodup_cons.mp hnd).1 hx')
      rw [hb, List.nil_append]
      exact ih (List.nodup_cons.mp hnd).2 hx'
        fun a ha hax => h0 a (List.mem_cons_of_mem _ ha) hax

theorem deviceSegment_self {mainDevice id : ℕ} {used : ℕ → Bool}
    (hne : id ≠ mainDevice) (hu : used id = true) :
    deviceSegment mainDevice used id =
      [SyncAction.streamWaitEvent id mainDevice, SyncAction.deviceWork id,
       SyncAction.eventRecord id id] := by
  simp [deviceSegment, hu, hne]

theorem deviceSegment_filter_ne {mainDevice : ℕ} {used : ℕ → Bool}
    {id a : ℕ} (ha : a ≠ id) :
    (deviceSegment mainDevice used a).filter
      (fun x => decide (streamOf x = some id)) = [] := by
  unfold deviceSegment
  split
  · split <;> simp [streamOf, ha]
  · rfl

theorem sync_not_mem_deviceSegment {mainDevice : ℕ} {used : ℕ → Bool} {a : ℕ} :
    SyncAction.deviceSynchronize ∉ deviceSegment mainDevice used a := by
  unfold deviceSegment
  split
  · split <;> simp
  · simp

/-- C9 (confirmed).  In every split invocation of the dispatcher with more
than one device: the main device records its completion event first; for
every participating (used) non-main device, that event-record comes before
the device's stream-wait on it, which comes before the device's work, which
comes before the device's own event-record, which comes before the main
stream's wait on it (stated as a sublist of the trace); the stream-wait on
the main device's event is the first call on the non-main device's stream;
and the host thread blocks (`cudaDeviceSynchronize`) exactly when the
destination tensor is host-resident, as the final call. -/
theorem C9_cross_device_ordering (deviceCount mainDevice : ℕ) (used : ℕ → Bool)
    (dstIsCPU : Bool) (_hcount : 1 < deviceCount) :
    (ggml_cuda_op_trace deviceCount mainDevice used dstIsCPU).head?
      = some (SyncAction.eventRecord mainDevice mainDevice) ∧
    (∀ id, id < deviceCount → id ≠ mainDevice → used id = true →
      List.Sublist
        [SyncAction.eventRecord mainDevice mainDevice,
         SyncAction.streamWaitEvent id mainDevice,
         SyncAction.deviceWork id,
         SyncAction.eventRecord id id,
         SyncAction.streamWaitEvent mainDevice id]
        (ggml_cuda_op_trace deviceCount mainDevice used dstIsCPU)) ∧
    (∀ id, id < deviceCount → id ≠ mainDevice → used id = true →
      ((ggml_cuda_op_trace deviceCount mainDevice used dstIsCPU).filter
          (fun a => decide (streamOf a = some id))).head?
        = some (SyncAction.streamWaitEvent id mainDevice)) ∧
    ((SyncAction.deviceSynchronize
        ∈ ggml_cuda_op_trace deviceCount mainDevice used dstIsCPU)
      ↔ dstIsCPU = true) ∧
    (dstIsCPU = true →
      (ggml_cuda_op_trace deviceCount mainDevice used dstIsCPU).getLast?
        = some SyncAction.deviceSynchronize) := by
  refine ⟨rfl, ?_, ?_, ?_, ?_⟩
  · intro id hid hne hu
    rw [ggml_cuda_op_trace]
    apply List.Sublist.cons₂
    have h1 : List.Sublist
        [SyncAction.streamWaitEvent id mainDevice, SyncAction.deviceWork id,
         SyncAction.eventRecord id id]
        ((List.range deviceCount).flatMap (deviceSegment mainDevice used)) := by
      rw [← deviceSegment_self hne hu]
      exact sublist_flatMap _ (List.mem_range.mpr hid)
    have h2 : List.Sublist [SyncAction.streamWaitEvent mainDevice id]
        ((List.range deviceCount).flatMap fun a =>
          if a ≠ mainDevice ∧ used a = true
          then [SyncAction.streamWaitEvent mainDevice a] else []) := by
      have := sublist_flatMap
        (fun a => if a ≠ mainDevice ∧ used a = true
          then [SyncAction.streamWaitEvent mainDevice a] else [])
        (List.mem_range.mpr hid)
      simpa [hne, hu] using this
    exact List.Sublist.append h1
      (h2.trans (List.sublist_append_left _ _))
  · intro id hid hne hu
    rw [ggml_cuda_op_trace]
    rw [List.filter_cons_of_neg (by simp [streamOf]; omega)]
    rw [List.filter_append, List.filter_append]
    have hA : ((List.range deviceCount).flatMap
          (deviceSegment mainDevice used)).filter
        (fun a => decide (streamOf a = some id))
        = [SyncAction.streamWaitEvent id mainDevice, SyncAction.deviceWork id,
           SyncAction.eventRecord id id] := by
      rw [filter_flatMap]
      rw [flatMap_eq_of_unique (List.nodup_range deviceCount)
        (List.mem_range.mpr hid) _
        (fun a _ ha => deviceSegment_filter_ne ha)]
      rw [deviceSegment_self hne hu]
      simp [streamOf]
    have hB : (((List.range deviceCount).flatMap fun a =>
          if a ≠ mainDevice ∧ used a = true
          then [SyncAction.streamWaitEvent mainDevice a] else []).filter
        (fun a => decide (streamOf a = some id))) = [] := by
      rw [filter_flatMap]
      apply List.flatMap_eq_nil_iff.mpr
      intro a _
      split
      · simp [streamOf]
        omega
      · rfl
    have hC : ((if dstIsCPU then [SyncAction.deviceSynchronize] else []).filter
        (fun a => decide (streamOf a = some id))) = [] := by
      split <;> simp [streamOf]
    rw [hA, hB, hC]
    rfl
  · constructor
    · intro hmem
      rw [ggml_cuda_op_trace] at hmem
      rcases List.mem_cons.mp hmem with h | h
      · exact absurd h (by simp)
      · rcases List.mem_append.mp h with h | h
        · rcases List.mem_flatMap.mp h with ⟨a, -, ha⟩
          exact absurd ha sync_not_mem_deviceSegment
        · rcases List.mem_append.mp h with h | h
          · rcases List.mem_flatMap.mp h with ⟨a, -, ha⟩
            revert ha
            split <;> simp
          · revert h
            split
            · intro _
              assumption
            · intro h
              simp at h
    · intro hcpu
      rw [ggml_cuda_op_trace, if_pos hcpu]
      simp
  · intro hcpu
    have heq : ggml_cuda_op_trace deviceCount mainDevice used dstIsCPU
        = (SyncAction.eventRecord mainDevice mainDevice ::
            (((List.range deviceCount).flatMap (deviceSegment mainDevice used)) ++
             ((List.range deviceCount).flatMap fun id =>
               if id ≠ mainDevice ∧ used id = true
               then [SyncAction.streamWaitEvent mainDevice id] else [])))
          ++ [SyncAction.deviceSynchronize] := by
      rw [ggml_cuda_op_trace, if_pos hcpu]
      simp [List.append_assoc]
    rw [heq, List.getLast?_concat]

/-- Witness for `C9_cross_device_ordering`: two devices, main device 0, both
used, host-resident destination; the ordering facts instantiated for
device 1. -/
theorem C9_cross_device_ordering_witness :
    (ggml_cuda_op_trace 2 0 (fun _ => true) true).head?
      = some (SyncAction.eventRecord 0 0) ∧
    List.Sublist
      [SyncAction.eventRecord 0 0, SyncAction.streamWaitEvent 1 0,
       SyncAction.deviceWork 1, SyncAction.eventRecord 1 1,
       SyncAction.streamWaitEvent 0 1]
      (ggml_cuda_op_trace 2 0 (fun _ => true) true) ∧
    (ggml_cuda_op_trace 2 0 (fun _ => true) true).getLast?
      = some SyncAction.deviceSynchronize :=
  ⟨(C9_cross_device_ordering 2 0 (fun _ => true) true (by norm_num)).1,
   (C9_cross_device_ordering 2 0 (fun _ => true) true (by norm_num)).2.1 1
     (by norm_num) (by norm_num) rfl,
   (C9_cross_device_ordering 2 0 (fun _ => true) true (by norm_num)).2.2.2.2 rfl⟩

end GgllmCuda
